import Mathlib

/-!
Verification of the omniflow-fly-server preview orchestrator.

This file gives a shallow embedding, in Lean 4, of the parts of the
TypeScript code base that the specification's testable properties talk
about, and proves (or refutes) each property against that embedding:

* the HMAC signature scheme (`src/lib/signature.ts`) and the auth
  middleware (`src/middleware/auth.ts`);
* project path sanitisation and project deletion
  (`ProjectManager.getProjectPath` / `deleteProject`);
* the JSX id generator and validator
  (`packages/vite-plugin-jsx-tagger/src/id-generator.ts`);
* the Vite instance supervisor's port pool and lifecycle
  (`src/services/vite-manager.ts`), including the readiness poll;
* the loop-aware JSX tagging Babel transform
  (`packages/vite-plugin-jsx-tagger/src/babel-plugin.ts`);
* the source-map manager and the Vite plugin's transform hook
  (`source-map.ts`, `scaffolder.ts`);
* dependency merging on the template fast path
  (`ProjectManager.createProject` / `mergeUserDependencies`);
* the reverse proxy's HTML injection (`src/index.ts`).

External cryptographic primitives (node's `crypto` module: SHA-256,
HMAC-SHA256, MD5) are not part of this repository; they are modelled as
abstract function parameters.  Where a proof needs a structural fact
about a digest (it is a lowercase hex string of fixed length) that fact
is taken as an explicit hypothesis, discharged in witnesses by a
concrete stand-in function with the same output format.  No theorem
depends on actual digest values.
-/

set_option maxRecDepth 10000

namespace OmniflowFly

/-! ## JavaScript string helpers

Small executable models of the JavaScript string operations the code
uses: `toUpperCase`, `lastIndexOf`, `slice`, first-occurrence
`replace`, `includes`, and `parseInt`.  All operate on `List Char`
and are lifted to `String` where convenient. -/

/-- Model of JavaScript `String.prototype.toUpperCase` (ASCII range,
which is all the code feeds it). -/
def jsToUpperCase (s : String) : String :=
  ⟨s.data.map Char.toUpper⟩

/-- Index of the last occurrence of `c` in `l`, or `none`. -/
def lastIdxOf (c : Char) (l : List Char) : Option Nat :=
  match l with
  | [] => none
  | x :: xs =>
    match lastIdxOf c xs with
    | some i => some (i + 1)
    | none => if x = c then some 0 else none

/-- Model of JavaScript `String.prototype.lastIndexOf` for a single
character: the index of the last occurrence, or `-1`. -/
def jsLastIndexOf (s : String) (c : Char) : Int :=
  match lastIdxOf c s.data with
  | some i => (i : Int)
  | none => -1

/-- Model of JavaScript `String.prototype.slice` with a single
non-negative start argument. -/
def jsSliceFrom (s : String) (start : Nat) : String :=
  ⟨s.data.drop start⟩

/-- Model of JavaScript `String.prototype.slice` with non-negative
start and end arguments. -/
def jsSlice (s : String) (start stop : Nat) : String :=
  ⟨(s.data.take stop).drop start⟩

/-- Check whether `pat` occurs as a contiguous substring of `l`. -/
def listContainsSubstr (pat l : List Char) : Bool :=
  match l with
  | [] => pat.isEmpty
  | _ :: xs => pat.isPrefixOf l || listContainsSubstr pat xs

/-- Model of JavaScript `String.prototype.includes`. -/
def jsIncludes (s pat : String) : Bool :=
  listContainsSubstr pat.data s.data

/-- Replace the first occurrence of `pat` (non-empty) in `l` by `repl`.
If `pat` does not occur, return `l` unchanged. -/
def listReplaceFirst (pat repl l : List Char) : List Char :=
  match l with
  | [] => []
  | x :: xs =>
    if pat.isPrefixOf l then repl ++ l.drop pat.length
    else x :: listReplaceFirst pat repl xs

/-- Model of JavaScript `String.prototype.replace` with a string
pattern: only the first occurrence is replaced. -/
def jsReplaceFirst (s pat repl : String) : String :=
  ⟨listReplaceFirst pat.data repl.data s.data⟩

/-- Decimal digit value of a character, if it is `0`-`9`. -/
def digitVal? (c : Char) : Option Nat :=
  if '0' ≤ c ∧ c ≤ '9' then some (c.toNat - 48) else none

/-- Accumulate leading decimal digits. -/
def takeDigits : List Char → Option Nat → Option Nat
  | [], acc => acc
  | c :: cs, acc =>
    match digitVal? c with
    | some d => takeDigits cs (some ((acc.getD 0) * 10 + d))
    | none => acc

/-- Model of JavaScript `parseInt(s, 10)`: optional sign followed by
leading decimal digits; trailing garbage is ignored; no digits ⇒ `NaN`
(modelled as `none`). -/
def jsParseInt (s : String) : Option Int :=
  match s.data.dropWhile (fun c => c = ' ' || c = '\t' || c = '\n') with
  | '-' :: rest => (takeDigits rest none).map (fun n => -(n : Int))
  | '+' :: rest => (takeDigits rest none).map (fun n => (n : Int))
  | rest => (takeDigits rest none).map (fun n => (n : Int))

/-! ## Hex encoding and buffers

Models of node's `Buffer.from(s, 'hex')` (used by `verifySignature`)
and of the lowercase-hex output format of `digest('hex')`. -/

/-- Value of a hexadecimal digit (both cases), or `none`.  Stated via
`Char.toNat` (48–57 is `0`–`9`, 97–102 is `a`–`f`, 65–70 is `A`–`F`). -/
def hexVal? (c : Char) : Option Nat :=
  if 48 ≤ c.toNat ∧ c.toNat ≤ 57 then some (c.toNat - 48)
  else if 97 ≤ c.toNat ∧ c.toNat ≤ 102 then some (c.toNat - 87)
  else if 65 ≤ c.toNat ∧ c.toNat ≤ 70 then some (c.toNat - 55)
  else none

/-- Character `c` is a lowercase hex digit (`0`-`9`, `a`-`f`). -/
def isLowerHexDigit (c : Char) : Bool :=
  (48 ≤ c.toNat && c.toNat ≤ 57) || (97 ≤ c.toNat && c.toNat ≤ 102)

/-- String made only of lowercase hex digits, of length `n`. -/
def isLowerHex (n : Nat) (s : String) : Bool :=
  s.data.length = n && s.data.all isLowerHexDigit

/-- Model of node's `Buffer.from(s, 'hex')`: decode complete pairs of
hex digits into bytes, stopping at the first invalid pair. -/
def hexPairsToBytes : List Char → List Nat
  | c1 :: c2 :: rest =>
    match hexVal? c1, hexVal? c2 with
    | some h, some l => (16 * h + l) :: hexPairsToBytes rest
    | _, _ => []
  | _ => []

/-- Buffer decoded from a hex string. -/
def bufferFromHex (s : String) : List Nat :=
  hexPairsToBytes s.data

/-- Model of `crypto.timingSafeEqual` on two buffers of equal length:
content equality (the constant-time aspect is not observable here). -/
def timingSafeEqual (a b : List Nat) : Bool :=
  a == b

/-! ## Signature verifier (`src/lib/signature.ts`)

The canonical payload is
`timestamp \n UPPERCASE_METHOD \n path \n bodyHash` where `bodyHash`
is `sha256hex(body)` when a non-empty body is present and the empty
string otherwise (JavaScript truthiness: an empty or absent body both
take the `''` branch).  The HMAC and SHA-256 primitives come from
node's `crypto` and are passed in as function parameters
(`sha256hex : String → String`, `hmacSha256hex : secret → payload →
hex`). -/

structure SignatureParams where
  method : String
  path : String
  body : Option String
  timestamp : Int
  deriving Repr, DecidableEq

/-- Canonical body hash: `params.body ? sha256hex(params.body) : ''`. -/
def bodyHashOf (sha256hex : String → String) (body : Option String) : String :=
  match body with
  | some b => if b = "" then "" else sha256hex b
  | none => ""

/-- Canonical signature payload
`[timestamp, method.toUpperCase(), path, bodyHash].join('\n')`. -/
def signaturePayload (sha256hex : String → String) (params : SignatureParams) : String :=
  String.intercalate "\n"
    [toString params.timestamp, jsToUpperCase params.method, params.path,
     bodyHashOf sha256hex params.body]

/-- Embedding of `generateSignature`. -/
def generateSignature (sha256hex : String → String)
    (hmacSha256hex : String → String → String)
    (params : SignatureParams) (secret : String) : String :=
  hmacSha256hex secret (signaturePayload sha256hex params)

/-- Embedding of `verifySignature`: recompute, hex-decode both, compare
lengths, then a timing-safe content comparison. -/
def verifySignature (sha256hex : String → String)
    (hmacSha256hex : String → String → String)
    (params : SignatureParams) (signature : String) (secret : String) : Bool :=
  let expectedSignature := generateSignature sha256hex hmacSha256hex params secret
  let signatureBuffer := bufferFromHex signature
  let expectedBuffer := bufferFromHex expectedSignature
  if signatureBuffer.length ≠ expectedBuffer.length then false
  else timingSafeEqual signatureBuffer expectedBuffer

/-- Embedding of `isTimestampValid`: absolute skew against wall-clock
seconds is at most the tolerance (default 300 s). -/
def isTimestampValid (now timestamp : Int) (toleranceSeconds : Int := 300) : Bool :=
  |now - timestamp| ≤ toleranceSeconds

/-! ## Auth middleware (`src/middleware/auth.ts`) -/

structure AuthConfig where
  apiKey : String
  apiSecret : String
  deriving Repr, DecidableEq

/-- Incoming request as the middleware sees it: the three auth headers
(absent modelled as `none`), the method, the URL pathname and the raw
body text. -/
structure AuthRequest where
  headerApiKey : Option String
  headerTimestamp : Option String
  headerSignature : Option String
  method : String
  pathname : String
  bodyText : String
  deriving Repr, DecidableEq

inductive AuthResult where
  /-- `await next()`; the stored raw body, when one was stashed. -/
  | proceed (rawBody : Option String)
  /-- A `401` JSON response with the given error code. -/
  | reject401 (code : String)
  deriving Repr, DecidableEq

/-- JavaScript truthiness of an optional string header: absent or empty
is falsy. -/
def headerFalsy (h : Option String) : Bool :=
  match h with
  | none => true
  | some s => s = ""

/-- Embedding of `authMiddleware`.  `now` is
`Math.floor(Date.now() / 1000)` at the timestamp check. -/
def authMiddleware (sha256hex : String → String)
    (hmacSha256hex : String → String → String)
    (cfg : AuthConfig) (now : Int) (req : AuthRequest) : AuthResult :=
  if cfg.apiKey = "" ∨ cfg.apiSecret = "" then
    .proceed none
  else if headerFalsy req.headerApiKey || headerFalsy req.headerTimestamp
      || headerFalsy req.headerSignature then
    .reject401 "AUTH_MISSING_HEADERS"
  else if req.headerApiKey.getD "" ≠ cfg.apiKey then
    .reject401 "AUTH_INVALID_KEY"
  else
    match jsParseInt (req.headerTimestamp.getD "") with
    | none => .reject401 "AUTH_INVALID_TIMESTAMP"
    | some timestamp =>
      if ¬ isTimestampValid now timestamp 300 then
        .reject401 "AUTH_TIMESTAMP_EXPIRED"
      else
        let body := req.bodyText
        let isValid := verifySignature sha256hex hmacSha256hex
          { method := req.method, path := req.pathname,
            body := if body = "" then none else some body,
            timestamp := timestamp }
          (req.headerSignature.getD "") cfg.apiSecret
        if ¬ isValid then .reject401 "AUTH_INVALID_SIGNATURE"
        else .proceed (some body)

/-! ## Concrete stand-ins for the external digest primitives

These instantiate the abstract `crypto` parameters in closed witness
statements.  They reproduce only the output format of the real
primitives (lowercase hex of the digest length); theorems about the
code are quantified over all primitives, so nothing depends on these
particular functions. -/

/-- Cheap accumulator over the characters of a string. -/
def foldHash (s : String) : Nat :=
  s.data.foldl (fun h c => (h * 31 + c.toNat) % (2 ^ 32)) 17

/-- Lowercase hex rendering of `v`, padded on the left to `width`
digits. -/
def natToHexPad (width v : Nat) : String :=
  ⟨(List.range width).reverse.map
    (fun i => Nat.digitChar ((v / 16 ^ i) % 16))⟩

/-- Stand-in for `crypto.createHash('sha256')....digest('hex')`:
64 lowercase hex characters. -/
def sha256hexModel (s : String) : String :=
  natToHexPad 64 (foldHash s)

/-- Stand-in for `crypto.createHmac('sha256', secret)...digest('hex')`:
64 lowercase hex characters. -/
def hmacSha256hexModel (secret payload : String) : String :=
  natToHexPad 64 (foldHash (secret ++ "\x00" ++ payload))

/-- Stand-in for `crypto.createHash('md5')....digest('hex')`:
32 lowercase hex characters. -/
def md5hexModel (s : String) : String :=
  natToHexPad 32 (foldHash s)

/-! ## Project paths (`ProjectManager.getProjectPath` / `deleteProject`)

The project manager sanitises the project id with
`projectId.replace(/[^a-zA-Z0-9_-]/g, '')` and joins the result with
`DATA_DIR` via node's `path.join`.  For a second segment that is free
of separators and dots (which the sanitised id always is), `path.join`
is plain concatenation with a `/`, and `path.join(dir, '')` is `dir`
itself. -/

/-- Character class `[a-zA-Z0-9_-]` of the sanitising regex. -/
def isSafeIdChar (c : Char) : Bool :=
  ('a' ≤ c && c ≤ 'z') || ('A' ≤ c && c ≤ 'Z') || ('0' ≤ c && c ≤ '9')
    || c = '_' || c = '-'

/-- Embedding of `projectId.replace(/[^a-zA-Z0-9_-]/g, '')`. -/
def sanitizeProjectId (projectId : String) : String :=
  ⟨projectId.data.filter isSafeIdChar⟩

/-- The configured data root (`process.env.DATA_DIR || '/data/sites'`);
kept as a named constant so theorems can speak about it. -/
def DATA_DIR : String := "/data/sites"

/-- Model of `path.join(dir, seg)` for a segment containing no path
separators and no dots: concatenation, except that joining the empty
segment yields `dir` itself. -/
def pathJoin (dir seg : String) : String :=
  if seg = "" then dir else dir ++ "/" ++ seg

/-- Embedding of `ProjectManager.getProjectPath`. -/
def getProjectPath (projectId : String) : String :=
  pathJoin DATA_DIR (sanitizeProjectId projectId)

/-- Path `p` lies within directory `dir`: it is `dir` itself or an
entry below `dir`. -/
def pathWithin (dir p : String) : Bool :=
  p = dir || (dir ++ "/").data.isPrefixOf p.data

/-- Split a character list at a separator (model of splitting a path
into components). -/
def splitChars (sep : Char) : List Char → List (List Char)
  | [] => [[]]
  | c :: cs =>
    if c = sep then [] :: splitChars sep cs
    else
      match splitChars sep cs with
      | h :: t => (c :: h) :: t
      | [] => [[c]]

/-- Path components of a path string (split at `/`). -/
def pathComponents (p : String) : List String :=
  (splitChars '/' p.data).map (fun l => ⟨l⟩)

/-- Embedding of the effect of `ProjectManager.deleteProject` on the
file store: `rm(projectPath, recursive, force)` removes every path that
lies within `getProjectPath(projectId)`.  The file store is the set of
on-disk paths, modelled as a list. -/
def deleteProjectFs (fs : List String) (projectId : String) : List String :=
  fs.filter (fun p => ¬ pathWithin (getProjectPath projectId) p)

/-! ## JSX id generator (`packages/vite-plugin-jsx-tagger/src/id-generator.ts`)

The id is the first 8 hex characters of `md5(file ++ ":" ++ line ++
":" ++ column)`, optionally preceded by `prefix ++ "-"`.  The MD5
primitive is abstract; validity proofs only use that its output is a
lowercase hex string of length 32. -/

/-- Embedding of `generateStableId`. -/
def generateStableId (md5hex : String → String)
    (filePath : String) (line column : Nat) (pfx : String := "") : String :=
  let input := filePath ++ ":" ++ toString line ++ ":" ++ toString column
  let hash := jsSlice (md5hex input) 0 8
  if pfx = "" then hash else pfx ++ "-" ++ hash

/-- Result of `parseJsxId`. -/
structure ParsedJsxId where
  jsxPrefix : Option String
  hash : String
  deriving Repr, DecidableEq

/-- Test of the regex `/^[a-f0-9]{8}$/`. -/
def isHash8 (s : String) : Bool :=
  s.data.length = 8 && s.data.all isLowerHexDigit

/-- Embedding of `parseJsxId`: split at the last `-` when what follows
it is exactly 8 lowercase hex characters and the dash is not the first
character; otherwise the whole id is the hash. -/
def parseJsxId (jsxId : String) : ParsedJsxId :=
  let lastDashIndex := jsLastIndexOf jsxId '-'
  if 0 < lastDashIndex ∧ (jsxId.data.length : Int) - lastDashIndex - 1 = 8 then
    let potentialHash := jsSliceFrom jsxId (lastDashIndex.toNat + 1)
    if isHash8 potentialHash then
      { jsxPrefix := some (jsSlice jsxId 0 lastDashIndex.toNat),
        hash := potentialHash }
    else { jsxPrefix := none, hash := jsxId }
  else { jsxPrefix := none, hash := jsxId }

/-- Embedding of `isValidJsxId` on a genuine string argument.  The
guard `!jsxId` makes the empty string invalid. -/
def isValidJsxId (jsxId : String) : Bool :=
  if jsxId = "" then false
  else isHash8 (parseJsxId jsxId).hash

/-- Embedding of calling `isValidJsxId` from JavaScript where the
argument may also be `null` or `undefined` (the `typeof` guard returns
false for both). -/
def isValidJsxIdJs (jsxId : Option String) : Bool :=
  match jsxId with
  | none => false
  | some s => isValidJsxId s

/-! ## Helper lemmas -/

theorem String.data_mk (l : List Char) : (String.mk l).data = l := rfl

theorem data_append (s t : String) : (s ++ t).data = s.data ++ t.data := by
  cases s; cases t; rfl

/-- Every character produced by `natToHexPad` is a lowercase hex
digit, and the output has exactly `width` characters. -/
theorem natToHexPad_isLowerHex (width v : Nat) :
    isLowerHex width (natToHexPad width v) = true := by
  have hdigit : ∀ n < 16, isLowerHexDigit (Nat.digitChar n) = true := by decide
  simp only [isLowerHex, natToHexPad, String.data_mk, Bool.and_eq_true,
    decide_eq_true_eq, List.all_eq_true, List.length_map, List.length_reverse,
    List.length_range]
  refine ⟨trivial, ?_⟩
  intro c hc
  rcases List.mem_map.mp hc with ⟨i, _, rfl⟩
  exact hdigit _ (Nat.mod_lt _ (by norm_num))

/-- The concrete stand-in digests have the right format. -/
theorem md5hexModel_format (s : String) : isLowerHex 32 (md5hexModel s) = true :=
  natToHexPad_isLowerHex 32 (foldHash s)

theorem hmacSha256hexModel_format (secret payload : String) :
    isLowerHex 64 (hmacSha256hexModel secret payload) = true :=
  natToHexPad_isLowerHex 64 (foldHash (secret ++ "\x00" ++ payload))

/-- The result of `splitChars` is never the empty list. -/
theorem splitChars_ne_nil (sep : Char) (l : List Char) :
    splitChars sep l ≠ [] := by
  cases l with
  | nil => simp [splitChars]
  | cons x xs =>
    simp only [splitChars]
    by_cases hx : x = sep
    · simp [hx]
    · rw [if_neg hx]
      cases splitChars sep xs with
      | nil => simp
      | cons h t => simp

/-- Characters of any component of `splitChars sep l` come from `l`. -/
theorem splitChars_mem_subset {sep : Char} :
    ∀ {l comp : List Char}, comp ∈ splitChars sep l → ∀ c ∈ comp, c ∈ l := by
  intro l
  induction l with
  | nil =>
    intro comp h c hc
    simp only [splitChars, List.mem_singleton] at h
    subst h; cases hc
  | cons x xs ih =>
    intro comp h c hc
    obtain ⟨hd, tl, hr⟩ : ∃ hd tl, splitChars sep xs = hd :: tl := by
      cases hs : splitChars sep xs with
      | nil => exact absurd hs (splitChars_ne_nil sep xs)
      | cons a b => exact ⟨a, b, rfl⟩
    by_cases hx : x = sep
    · rw [splitChars, if_pos hx] at h
      rcases List.mem_cons.mp h with rfl | h
      · cases hc
      · exact List.mem_cons_of_mem _ (ih h c hc)
    · rw [splitChars, if_neg hx, hr] at h
      rcases List.mem_cons.mp h with rfl | h
      · rcases List.mem_cons.mp hc with rfl | hc
        · exact List.mem_cons_self _ _
        · exact List.mem_cons_of_mem _
            (ih (hr ▸ List.mem_cons_self hd tl) c hc)
      · exact List.mem_cons_of_mem _
          (ih (hr ▸ List.mem_cons_of_mem hd h) c hc)

/-- Characters of the sanitised id are all in `[a-zA-Z0-9_-]`. -/
theorem sanitize_chars_safe (projectId : String) :
    ∀ c ∈ (sanitizeProjectId projectId).data, isSafeIdChar c = true := by
  intro c hc
  exact (List.mem_filter.mp hc).2

/-- Every character of `getProjectPath projectId` is a character of
the data root, a slash, or a safe id character. -/
theorem getProjectPath_chars (projectId : String) :
    ∀ c ∈ (getProjectPath projectId).data,
      c ∈ DATA_DIR.data ∨ c = '/' ∨ isSafeIdChar c = true := by
  intro c hc
  unfold getProjectPath pathJoin at hc
  by_cases hempty : sanitizeProjectId projectId = ""
  · rw [if_pos hempty] at hc
    exact Or.inl hc
  · rw [if_neg hempty, data_append, data_append] at hc
    rcases List.mem_append.mp hc with h | h
    · rcases List.mem_append.mp h with h | h
      · exact Or.inl h
      · rcases List.mem_singleton.mp h with rfl
        exact Or.inr (Or.inl rfl)
    · exact Or.inr (Or.inr (sanitize_chars_safe projectId c h))

/-! ## Claim C3: path-traversal resistance -/

/-- C3.  For every projectId, `getProjectPath` keeps only characters
in `[A-Za-z0-9_-]` and joins with the data root, so the result lies
within `DATA_DIR` and has no `..` component; in particular
`getProjectPath "../etc/passwd"` is `/data/sites/etcpasswd`, within
`DATA_DIR`. -/
theorem getProjectPath_traversal_resistant (projectId : String) :
    (∀ c ∈ (sanitizeProjectId projectId).data, isSafeIdChar c = true) ∧
    pathWithin DATA_DIR (getProjectPath projectId) = true ∧
    ".." ∉ pathComponents (getProjectPath projectId) ∧
    getProjectPath "../etc/passwd" = "/data/sites/etcpasswd" := by
  refine ⟨sanitize_chars_safe projectId, ?_, ?_, by decide⟩
  · unfold getProjectPath pathJoin pathWithin
    by_cases hempty : sanitizeProjectId projectId = ""
    · simp [hempty]
    · rw [if_neg hempty]
      refine Bool.or_eq_true _ _ ▸ Or.inr ?_
      have : (DATA_DIR ++ "/" ++ sanitizeProjectId projectId).data
          = (DATA_DIR ++ "/").data ++ (sanitizeProjectId projectId).data := by
        rw [data_append]
      rw [this]
      exact List.isPrefixOf_iff_prefix.mpr (List.prefix_append _ _)
  · intro hmem
    rcases List.mem_map.mp hmem with ⟨comp, hcomp, hmk⟩
    have hdot : '.' ∈ comp := by
      have : comp = ['.', '.'] := by
        have := congrArg String.data hmk
        simpa [String.data_mk] using this
      simp [this]
    have := splitChars_mem_subset hcomp '.' hdot
    rcases getProjectPath_chars projectId '.' this with h | h | h
    · revert h; decide
    · cases h
    · revert h; decide

/-! ## Claim C9: empty sanitised id maps to the data root itself -/

/-- C9.  If no character of `projectId` is in `[A-Za-z0-9_-]` (for
example `".."`), the sanitised id is empty, `getProjectPath` returns
`DATA_DIR` itself, and `deleteProject` therefore removes every path
lying within the data root — project directories and the template
directory included. -/
theorem deleteProject_empty_id_removes_data_root (projectId : String)
    (h : ∀ c ∈ projectId.data, isSafeIdChar c = false) :
    sanitizeProjectId projectId = "" ∧
    getProjectPath projectId = DATA_DIR ∧
    ∀ (fs : List String) (p : String), pathWithin DATA_DIR p = true →
      p ∉ deleteProjectFs fs projectId := by
  have hs : sanitizeProjectId projectId = "" := by
    apply String.ext
    simp only [sanitizeProjectId, String.data_mk]
    rw [List.filter_eq_nil_iff]
    intro c hc
    simp [h c hc]
  have hp : getProjectPath projectId = DATA_DIR := by
    unfold getProjectPath pathJoin
    rw [hs, if_pos rfl]
  refine ⟨hs, hp, ?_⟩
  intro fs p hwithin hmem
  have := (List.mem_filter.mp hmem).2
  rw [hp] at this
  simp [hwithin] at this

/-- Witness for C9 at the concrete input `".."`: `getProjectPath`
returns the data root, and deleting that "project" removes the
template directory from the file store. -/
theorem deleteProject_empty_id_removes_data_root_witness :
    getProjectPath ".." = DATA_DIR ∧
    "/data/sites/_template" ∉
      deleteProjectFs ["/data/sites/_template", "/data/sites/p1/src/App.tsx"] ".." := by
  have h := deleteProject_empty_id_removes_data_root ".." (by decide)
  exact ⟨h.2.1, h.2.2 _ _ (by decide)⟩

/-! ## Claim C7: id validity -/

/-- A character absent from a list has no last index in it. -/
theorem lastIdxOf_eq_none {c : Char} {l : List Char} (h : c ∉ l) :
    lastIdxOf c l = none := by
  induction l with
  | nil => rfl
  | cons x xs ih =>
    have hx : ¬ x = c := fun hxc => h (hxc ▸ List.mem_cons_self x xs)
    have hxs : c ∉ xs := fun hm => h (List.mem_cons_of_mem x hm)
    simp [lastIdxOf, ih hxs, hx]

/-- When `c` does not occur in `l₂`, the last occurrence of `c` in
`l₁ ++ c :: l₂` is at index `l₁.length`. -/
theorem lastIdxOf_append (l₁ l₂ : List Char) (c : Char)
    (h : lastIdxOf c l₂ = none) :
    lastIdxOf c (l₁ ++ c :: l₂) = some l₁.length := by
  induction l₁ with
  | nil => simp [lastIdxOf, h]
  | cons x xs ih => simp [lastIdxOf, ih]

/-- C7.  The id generator always produces a valid id (for any MD5
primitive whose hex digest is 32 lowercase hex characters), and the
listed malformed inputs — the empty string, `"123"`, `"123456789"`,
`"1234567g"`, and a `null`/`undefined` argument — are all invalid. -/
theorem isValidJsxId_generateStableId :
    (∀ (md5hex : String → String),
      (∀ s, isLowerHex 32 (md5hex s) = true) →
      ∀ (filePath : String) (line column : Nat) (pfx : String),
        isValidJsxId (generateStableId md5hex filePath line column pfx) = true) ∧
    isValidJsxId "" = false ∧
    isValidJsxId "123" = false ∧
    isValidJsxId "123456789" = false ∧
    isValidJsxId "1234567g" = false ∧
    isValidJsxIdJs none = false := by
  refine ⟨?_, by decide, by decide, by decide, by decide, rfl⟩
  intro md5hex hfmt filePath line column pfx
  set input := filePath ++ ":" ++ toString line ++ ":" ++ toString column with hinput
  have hf := hfmt input
  simp only [isLowerHex, Bool.and_eq_true, decide_eq_true_eq,
    List.all_eq_true] at hf
  obtain ⟨hlen, hall⟩ := hf
  set hashS := jsSlice (md5hex input) 0 8 with hhash
  have hhdata : hashS.data = (md5hex input).data.take 8 := by
    simp [hhash, jsSlice]
  have hhlen : hashS.data.length = 8 := by
    simp [hhdata, hlen]
  have hhall : ∀ c ∈ hashS.data, isLowerHexDigit c = true := by
    intro c hc
    exact hall c (List.mem_of_mem_take (hhdata ▸ hc))
  have hnodash : lastIdxOf '-' hashS.data = none := by
    apply lastIdxOf_eq_none
    intro hmem
    have := hhall '-' hmem
    simp [isLowerHexDigit] at this
  have hhash8 : isHash8 hashS = true := by
    simp only [isHash8, Bool.and_eq_true, decide_eq_true_eq, List.all_eq_true]
    exact ⟨hhlen, hhall⟩
  have hashS_ne : hashS ≠ "" := by
    intro h
    rw [h] at hhlen
    simp at hhlen
  show isValidJsxId (if pfx = "" then hashS else pfx ++ "-" ++ hashS) = true
  by_cases hpfx : pfx = ""
  · rw [if_pos hpfx]
    unfold isValidJsxId
    rw [if_neg hashS_ne]
    unfold parseJsxId jsLastIndexOf
    rw [hnodash]
    simp [hhash8]
  · rw [if_neg hpfx]
    set theId := pfx ++ "-" ++ hashS with hid
    have hdata : theId.data = pfx.data ++ '-' :: hashS.data := by
      rw [hid, data_append, data_append]
      simp
    have hpfxdata : pfx.data ≠ [] := by
      intro h
      exact hpfx (String.ext h)
    have hpfxlen : 0 < pfx.data.length := List.length_pos.mpr hpfxdata
    have hidlen : theId.data.length = pfx.data.length + 9 := by
      rw [hdata]
      simp [hhlen]
    have hlast : lastIdxOf '-' theId.data = some pfx.data.length := by
      rw [hdata]
      exact lastIdxOf_append _ _ _ hnodash
    have hid_ne : theId ≠ "" := by
      intro h
      rw [h] at hidlen
      simp at hidlen
    unfold isValidJsxId
    rw [if_neg hid_ne]
    unfold parseJsxId jsLastIndexOf
    rw [hlast]
    have hcond : (0 : Int) < (pfx.data.length : Int) ∧
        (theId.data.length : Int) - (pfx.data.length : Int) - 1 = 8 := by
      constructor
      · exact_mod_cast hpfxlen
      · rw [hidlen]; push_cast; ring
    rw [if_pos hcond]
    have hslice : jsSliceFrom theId ((pfx.data.length : Int).toNat + 1) = hashS := by
      apply String.ext
      simp only [jsSliceFrom, String.data_mk, Int.toNat_ofNat]
      rw [hdata]
      have : pfx.data ++ '-' :: hashS.data = (pfx.data ++ ['-']) ++ hashS.data := by
        simp
      rw [this]
      have hlen1 : (pfx.data ++ ['-']).length = pfx.data.length + 1 := by simp
      rw [← hlen1, List.drop_left]
    simp only [hslice, hhash8, if_pos]

/-- Witness for C7 at concrete inputs, with the concrete stand-in MD5
primitive discharging the digest-format hypothesis. -/
theorem isValidJsxId_generateStableId_witness :
    isValidJsxId (generateStableId md5hexModel "/src/App.tsx" 3 10 "demo") = true ∧
    isValidJsxId (generateStableId md5hexModel "/src/App.tsx" 3 10 "") = true :=
  ⟨isValidJsxId_generateStableId.1 md5hexModel md5hexModel_format "/src/App.tsx" 3 10 "demo",
   isValidJsxId_generateStableId.1 md5hexModel md5hexModel_format "/src/App.tsx" 3 10 ""⟩

/-! ## Claim C2: signature correctness -/

theorem char_eq_of_toNat_eq {c d : Char} (h : c.toNat = d.toNat) : c = d :=
  Char.eq_of_val_eq (UInt32.eq_of_val_eq (Fin.eq_of_val_eq h))

/-- A lowercase hex digit always has a hex value, below 16. -/
theorem hexVal_of_lower {c : Char} (h : isLowerHexDigit c = true) :
    ∃ v, hexVal? c = some v ∧ v < 16 := by
  simp only [isLowerHexDigit, Bool.or_eq_true, Bool.and_eq_true,
    decide_eq_true_eq] at h
  unfold hexVal?
  rcases h with ⟨h1, h2⟩ | ⟨h1, h2⟩
  · rw [if_pos ⟨h1, h2⟩]
    exact ⟨_, rfl, by omega⟩
  · rw [if_neg (by omega), if_pos ⟨h1, h2⟩]
    exact ⟨_, rfl, by omega⟩

/-- On lowercase hex digits, `hexVal?` is injective. -/
theorem hexVal_inj {c d : Char} (hc : isLowerHexDigit c = true)
    (hd : isLowerHexDigit d = true) (h : hexVal? c = hexVal? d) : c = d := by
  simp only [isLowerHexDigit, Bool.or_eq_true, Bool.and_eq_true,
    decide_eq_true_eq] at hc hd
  apply char_eq_of_toNat_eq
  unfold hexVal? at h
  rcases hc with ⟨hc1, hc2⟩ | ⟨hc1, hc2⟩ <;> rcases hd with ⟨hd1, hd2⟩ | ⟨hd1, hd2⟩
  · rw [if_pos ⟨hc1, hc2⟩, if_pos ⟨hd1, hd2⟩] at h
    have := Option.some.inj h
    omega
  · rw [if_pos ⟨hc1, hc2⟩, if_neg (by omega), if_pos ⟨hd1, hd2⟩] at h
    have := Option.some.inj h
    omega
  · rw [if_neg (by omega), if_pos ⟨hc1, hc2⟩, if_pos ⟨hd1, hd2⟩] at h
    have := Option.some.inj h
    omega
  · rw [if_neg (by omega), if_pos ⟨hc1, hc2⟩, if_neg (by omega),
      if_pos ⟨hd1, hd2⟩] at h
    have := Option.some.inj h
    omega

/-- Decoding a string of lowercase hex digits yields one byte per two
characters. -/
theorem hexPairsToBytes_length_aux :
    ∀ (n : Nat) (l : List Char), l.length ≤ n →
      (∀ c ∈ l, isLowerHexDigit c = true) →
      (hexPairsToBytes l).length = l.length / 2 := by
  intro n
  induction n with
  | zero =>
    intro l hl _
    rw [List.length_eq_zero.mp (Nat.le_zero.mp hl)]
    rfl
  | succ n ih =>
    intro l hl hhex
    match l with
    | [] => rfl
    | [c] => simp [hexPairsToBytes]
    | c1 :: c2 :: rest =>
      obtain ⟨v1, hv1, _⟩ := hexVal_of_lower (hhex c1 (by simp))
      obtain ⟨v2, hv2, _⟩ := hexVal_of_lower (hhex c2 (by simp))
      have hr : (hexPairsToBytes rest).length = rest.length / 2 := by
        apply ih rest (by simp at hl; omega)
        intro c hc
        exact hhex c (by simp [hc])
      simp only [hexPairsToBytes, hv1, hv2, List.length_cons, hr]
      omega

/-- Decoding is injective on equal-length, even-length lowercase hex
strings. -/
theorem hexPairsToBytes_inj_aux :
    ∀ (n : Nat) (l₁ l₂ : List Char), l₁.length ≤ n →
      (∀ c ∈ l₁, isLowerHexDigit c = true) →
      (∀ c ∈ l₂, isLowerHexDigit c = true) →
      l₁.length = l₂.length → l₁.length % 2 = 0 →
      hexPairsToBytes l₁ = hexPairsToBytes l₂ → l₁ = l₂ := by
  intro n
  induction n with
  | zero =>
    intro l₁ l₂ hl hhex1 hhex2 hlen _ _
    rw [List.length_eq_zero.mp (Nat.le_zero.mp hl)]
    rw [List.length_eq_zero.mp (Nat.le_zero.mp hl)] at hlen
    exact (List.length_eq_zero.mp hlen.symm).symm
  | succ n ih =>
    intro l₁ l₂ hl hhex1 hhex2 hlen heven hdec
    match l₁, l₂ with
    | [], [] => rfl
    | [], _ :: _ => simp at hlen
    | _ :: _, [] => simp at hlen
    | [c], l₂ => simp at heven
    | c1 :: c2 :: r1, [d] =>
      simp only [List.length_cons, List.length_nil] at hlen
      omega
    | c1 :: c2 :: r1, d1 :: d2 :: r2 =>
      obtain ⟨v1, hv1, hv1lt⟩ := hexVal_of_lower (hhex1 c1 (by simp))
      obtain ⟨v2, hv2, hv2lt⟩ := hexVal_of_lower (hhex1 c2 (by simp))
      obtain ⟨w1, hw1, hw1lt⟩ := hexVal_of_lower (hhex2 d1 (by simp))
      obtain ⟨w2, hw2, hw2lt⟩ := hexVal_of_lower (hhex2 d2 (by simp))
      simp only [hexPairsToBytes, hv1, hv2, hw1, hw2, List.cons.injEq] at hdec
      obtain ⟨hhead, htail⟩ := hdec
      have hv : v1 = w1 ∧ v2 = w2 := by omega
      have hc1 : c1 = d1 :=
        hexVal_inj (hhex1 c1 (by simp)) (hhex2 d1 (by simp))
          (by rw [hv1, hw1, hv.1])
      have hc2 : c2 = d2 :=
        hexVal_inj (hhex1 c2 (by simp)) (hhex2 d2 (by simp))
          (by rw [hv2, hw2, hv.2])
      have hrest : r1 = r2 := by
        apply ih r1 r2 (by simp at hl; omega)
          (fun c hc => hhex1 c (by simp [hc]))
          (fun c hc => hhex2 c (by simp [hc]))
          (by simp at hlen; omega) (by simp at heven; omega) htail
      rw [hc1, hc2, hrest]

/-- Distinct 64-character lowercase hex strings decode to distinct
32-byte buffers. -/
theorem bufferFromHex_inj {s t : String}
    (hs : isLowerHex 64 s = true) (ht : isLowerHex 64 t = true)
    (hne : s ≠ t) : bufferFromHex s ≠ bufferFromHex t := by
  simp only [isLowerHex, Bool.and_eq_true, decide_eq_true_eq,
    List.all_eq_true] at hs ht
  intro h
  apply hne
  apply String.ext
  exact hexPairsToBytes_inj_aux 64 s.data t.data (le_of_eq hs.1) hs.2 ht.2
    (hs.1.trans ht.1.symm) (by rw [hs.1]) h

/-- Roundtrip half of C2: a signature generated over given parameters
verifies over the same parameters, for every choice of the crypto
primitives. -/
theorem verifySignature_roundtrip (sha256hex : String → String)
    (hmacSha256hex : String → String → String)
    (params : SignatureParams) (secret : String) :
    verifySignature sha256hex hmacSha256hex params
      (generateSignature sha256hex hmacSha256hex params secret) secret = true := by
  unfold verifySignature
  simp [timingSafeEqual]

/-- Tamper half of C2 (amended): whenever the two parameter sets give
distinct HMAC outputs — in particular whenever their canonical
payloads' digests differ — verification fails. -/
theorem verifySignature_tamper (sha256hex : String → String)
    (hmacSha256hex : String → String → String)
    (hfmt : ∀ k m, isLowerHex 64 (hmacSha256hex k m) = true)
    (params tampered : SignatureParams) (secret : String)
    (hne : generateSignature sha256hex hmacSha256hex params secret ≠
           generateSignature sha256hex hmacSha256hex tampered secret) :
    verifySignature sha256hex hmacSha256hex tampered
      (generateSignature sha256hex hmacSha256hex params secret) secret = false := by
  unfold verifySignature
  have hs : isLowerHex 64 (generateSignature sha256hex hmacSha256hex params secret)
      = true := hfmt secret _
  have ht : isLowerHex 64 (generateSignature sha256hex hmacSha256hex tampered secret)
      = true := hfmt secret _
  have hslen : (bufferFromHex
      (generateSignature sha256hex hmacSha256hex params secret)).length = 32 := by
    simp only [isLowerHex, Bool.and_eq_true, decide_eq_true_eq,
      List.all_eq_true] at hs
    have := hexPairsToBytes_length_aux 64 _ (le_of_eq hs.1) hs.2
    rw [bufferFromHex, this, hs.1]
  have htlen : (bufferFromHex
      (generateSignature sha256hex hmacSha256hex tampered secret)).length = 32 := by
    simp only [isLowerHex, Bool.and_eq_true, decide_eq_true_eq,
      List.all_eq_true] at ht
    have := hexPairsToBytes_length_aux 64 _ (le_of_eq ht.1) ht.2
    rw [bufferFromHex, this, ht.1]
  have hbuf : bufferFromHex (generateSignature sha256hex hmacSha256hex params secret)
      ≠ bufferFromHex (generateSignature sha256hex hmacSha256hex tampered secret) :=
    bufferFromHex_inj hs ht hne
  rw [if_neg (by rw [hslen, htlen]; omega)]
  simp only [timingSafeEqual, beq_eq_false_iff_ne, ne_eq]
  exact hbuf

/-- Middleware half of C2: with credentials configured, all headers
present, a matching key and a numeric timestamp whose skew from `now`
exceeds 300 seconds, the middleware rejects with a 401 and code
`AUTH_TIMESTAMP_EXPIRED`. -/
theorem authMiddleware_timestamp_expired (sha256hex : String → String)
    (hmacSha256hex : String → String → String)
    (cfg : AuthConfig) (now : Int) (req : AuthRequest)
    (tstr sig : String) (ts : Int)
    (hkey : cfg.apiKey ≠ "") (hsec : cfg.apiSecret ≠ "")
    (hk : req.headerApiKey = some cfg.apiKey)
    (ht : req.headerTimestamp = some tstr) (htne : tstr ≠ "")
    (hts : jsParseInt tstr = some ts)
    (hsig : req.headerSignature = some sig) (hsne : sig ≠ "")
    (hskew : 300 < |now - ts|) :
    authMiddleware sha256hex hmacSha256hex cfg now req =
      .reject401 "AUTH_TIMESTAMP_EXPIRED" := by
  unfold authMiddleware
  rw [if_neg (by push_neg; exact ⟨hkey, hsec⟩)]
  rw [if_neg (by simp [headerFalsy, hk, ht, hsig, hkey, htne, hsne])]
  rw [if_neg (by simp [hk])]
  rw [ht]
  simp only [Option.getD_some, hts]
  rw [if_pos (by simp [isTimestampValid]; omega)]

/-- C2 (amended).  The claim as frozen is false: `generateSignature`
canonicalises the method with `toUpperCase`, so signing with method
`"post"` and verifying with `"POST"` differ in an input yet verify
(see the counterexample).  The amended statement: (1) a generated
signature always verifies over the same parameters; (2) tampering with
method, path, body or timestamp makes verification fail whenever the
change alters the HMAC of the canonical payload (which any change
visible in the canonical payload does, up to digest collision);
(3) the auth middleware responds 401 `AUTH_TIMESTAMP_EXPIRED` when the
timestamp skew exceeds 300 s.  All parts are quantified over the
crypto primitives; part (2) uses only that HMAC digests are 64
lowercase hex characters. -/
theorem signature_auth_correctness :
    (∀ (sha256hex : String → String) (hmacSha256hex : String → String → String)
      (params : SignatureParams) (secret : String),
      verifySignature sha256hex hmacSha256hex params
        (generateSignature sha256hex hmacSha256hex params secret) secret = true) ∧
    (∀ (sha256hex : String → String) (hmacSha256hex : String → String → String),
      (∀ k m, isLowerHex 64 (hmacSha256hex k m) = true) →
      ∀ (params tampered : SignatureParams) (secret : String),
        generateSignature sha256hex hmacSha256hex params secret ≠
          generateSignature sha256hex hmacSha256hex tampered secret →
        verifySignature sha256hex hmacSha256hex tampered
          (generateSignature sha256hex hmacSha256hex params secret) secret = false) ∧
    (∀ (sha256hex : String → String) (hmacSha256hex : String → String → String)
      (cfg : AuthConfig) (now : Int) (req : AuthRequest)
      (tstr sig : String) (ts : Int),
      cfg.apiKey ≠ "" → cfg.apiSecret ≠ "" →
      req.headerApiKey = some cfg.apiKey →
      req.headerTimestamp = some tstr → tstr ≠ "" →
      jsParseInt tstr = some ts →
      req.headerSignature = some sig → sig ≠ "" →
      300 < |now - ts| →
      authMiddleware sha256hex hmacSha256hex cfg now req =
        .reject401 "AUTH_TIMESTAMP_EXPIRED") := by
  refine ⟨verifySignature_roundtrip, verifySignature_tamper, ?_⟩
  intro sha256hex hmacSha256hex cfg now req tstr sig ts h1 h2 h3 h4 h5 h6 h7 h8 h9
  exact authMiddleware_timestamp_expired sha256hex hmacSha256hex cfg now req
    tstr sig ts h1 h2 h3 h4 h5 h6 h7 h8 h9

/-- Counterexample to C2 as frozen: the method is canonicalised with
`toUpperCase`, so a request signed with method `"post"` verifies with
method `"POST"` although the two methods differ.  The canonical
payloads are equal, so this holds for every HMAC primitive; the
concrete stand-in makes the statement closed. -/
theorem signature_tamper_counterexample :
    ("post" ≠ "POST") ∧
    signaturePayload sha256hexModel
        { method := "post", path := "/projects", body := some "x",
          timestamp := 1700000000 } =
      signaturePayload sha256hexModel
        { method := "POST", path := "/projects", body := some "x",
          timestamp := 1700000000 } ∧
    verifySignature sha256hexModel hmacSha256hexModel
      { method := "POST", path := "/projects", body := some "x",
        timestamp := 1700000000 }
      (generateSignature sha256hexModel hmacSha256hexModel
        { method := "post", path := "/projects", body := some "x",
          timestamp := 1700000000 } "secret")
      "secret" = true := by
  refine ⟨by decide, by decide, ?_⟩
  have hpay : generateSignature sha256hexModel hmacSha256hexModel
      { method := "post", path := "/projects", body := some "x",
        timestamp := 1700000000 } "secret" =
    generateSignature sha256hexModel hmacSha256hexModel
      { method := "POST", path := "/projects", body := some "x",
        timestamp := 1700000000 } "secret" := by
    unfold generateSignature
    congr 1
  rw [hpay]
  exact verifySignature_roundtrip _ _ _ _

/-- Witness for C2 (amended) at concrete inputs: a roundtrip that
verifies, a path-tampered request that fails verification, and a
middleware rejection for a timestamp 301 s in the past. -/
theorem signature_auth_correctness_witness :
    verifySignature sha256hexModel hmacSha256hexModel
      { method := "POST", path := "/projects", body := some "x",
        timestamp := 1700000000 }
      (generateSignature sha256hexModel hmacSha256hexModel
        { method := "POST", path := "/projects", body := some "x",
          timestamp := 1700000000 } "secret") "secret" = true ∧
    verifySignature sha256hexModel hmacSha256hexModel
      { method := "POST", path := "/other", body := some "x",
        timestamp := 1700000000 }
      (generateSignature sha256hexModel hmacSha256hexModel
        { method := "POST", path := "/projects", body := some "x",
          timestamp := 1700000000 } "secret") "secret" = false ∧
    authMiddleware sha256hexModel hmacSha256hexModel
      { apiKey := "key", apiSecret := "secret" } 1700000301
      { headerApiKey := some "key", headerTimestamp := some "1700000000",
        headerSignature := some "deadbeef", method := "POST",
        pathname := "/projects", bodyText := "" } =
      .reject401 "AUTH_TIMESTAMP_EXPIRED" := by
  refine ⟨signature_auth_correctness.1 _ _ _ _, ?_, ?_⟩
  · exact signature_auth_correctness.2.1 sha256hexModel hmacSha256hexModel
      (fun k m => hmacSha256hexModel_format k m) _ _ "secret" (by decide)
  · exact signature_auth_correctness.2.2 sha256hexModel hmacSha256hexModel
      _ 1700000301 _ "1700000000" "deadbeef" 1700000000
      (by decide) (by decide) rfl rfl (by decide) (by decide) rfl (by decide)
      (by decide)

/-! ## Instance supervisor (`src/services/vite-manager.ts`)

The supervisor keeps a `Map` of instances keyed by project id and a
`Set` of free ports, initialised to
`basePort, …, basePort + maxInstances - 1`.  JavaScript `Map`/`Set`
iteration order is insertion order, so both are modelled as lists:
`allocatePort` takes the first pool element, `releasePort` appends
(if absent), `Map.set` replaces in place or appends, `Map.delete`
filters the key out.

The step relation `VStep` gives each complete public operation —
`start` (three outcomes: already-running, success, failure),
`stop`, the crash `exit` handler, and one idle-sweep eviction — as
one atomic transition, the net effect of the corresponding method
body. -/

inductive ViteStatus where
  | starting
  | running
  | stopping
  | stopped
  | error
  deriving Repr, DecidableEq

structure ViteInstance where
  port : Nat
  status : ViteStatus
  startedAt : Nat
  lastActive : Nat
  deriving Repr, DecidableEq

structure ViteManagerConfig where
  basePort : Nat
  maxInstances : Nat
  idleTimeout : Nat
  startupTimeout : Nat
  deriving Repr, DecidableEq

/-- Defaults from `DEFAULT_CONFIG` (ports 5200–5219, 30 min idle
timeout, 60 s startup timeout). -/
def DEFAULT_CONFIG : ViteManagerConfig :=
  { basePort := 5200, maxInstances := 20,
    idleTimeout := 30 * 60 * 1000, startupTimeout := 60 * 1000 }

/-- Lookup in the instance map. -/
def mapLookup : List (String × ViteInstance) → String → Option ViteInstance
  | [], _ => none
  | (k, v) :: rest, id => if k = id then some v else mapLookup rest id

/-- JavaScript `Map.set`: replace in place, or append a new entry. -/
def mapSet : List (String × ViteInstance) → String → ViteInstance →
    List (String × ViteInstance)
  | [], id, v => [(id, v)]
  | (k, w) :: rest, id, v =>
    if k = id then (k, v) :: rest else (k, w) :: mapSet rest id v

/-- JavaScript `Map.delete`. -/
def mapDelete (l : List (String × ViteInstance)) (id : String) :
    List (String × ViteInstance) :=
  l.filter (fun p => p.1 ≠ id)

/-- JavaScript `Set.add` (no-op when present, else appended). -/
def releasePort (pool : List Nat) (p : Nat) : List Nat :=
  if p ∈ pool then pool else pool ++ [p]

structure ManagerState where
  instances : List (String × ViteInstance)
  portPool : List Nat
  deriving Repr, DecidableEq

/-- Initial supervisor state built by the constructor: empty instance
map, pool `basePort, …, basePort + maxInstances - 1`. -/
def initState (cfg : ViteManagerConfig) : ManagerState :=
  { instances := [],
    portPool := (List.range cfg.maxInstances).map (fun i => cfg.basePort + i) }

/-- Net state after the failure path of `start` (the `catch` block:
`releasePort(port); instances.delete(projectId)`), having allocated
the pool head `p` with remainder `rest`. -/
def startFailState (s : ManagerState) (id : String) (p : Nat)
    (rest : List Nat) : ManagerState :=
  { instances := mapDelete (mapSet s.instances id
      { port := p, status := .error, startedAt := 0, lastActive := 0 }) id,
    portPool := releasePort rest p }

/-- Net state after a successful `start` at time `t`. -/
def startSuccessState (s : ManagerState) (id : String) (p : Nat)
    (rest : List Nat) (t : Nat) : ManagerState :=
  { instances := mapSet s.instances id
      { port := p, status := .running, startedAt := t, lastActive := t },
    portPool := rest }

/-- Net state after `stop` (also the crash `exit` handler and one
idle-sweep eviction): release the instance's port, drop the record. -/
def stopState (s : ManagerState) (id : String) (inst : ViteInstance) :
    ManagerState :=
  { instances := mapDelete s.instances id,
    portPool := releasePort s.portPool inst.port }

/-- Net state after `start` finds an already-`running` instance: only
`lastActive` is refreshed (`markActive` has the same effect). -/
def markActiveState (s : ManagerState) (id : String) (inst : ViteInstance)
    (t : Nat) : ManagerState :=
  { s with instances := mapSet s.instances id { inst with lastActive := t } }

/-- Atomic supervisor steps.  Each constructor is the net effect of one
complete `start` / `stop` / crash-`exit` / idle-sweep operation from
the source, under the spec's single-threaded atomicity discipline. -/
inductive VStep (cfg : ViteManagerConfig) : ManagerState → ManagerState → Prop where
  /-- `start` on an instance that is already `running`: only
  `lastActive` is refreshed. -/
  | startExisting (s : ManagerState) (id : String) (inst : ViteInstance) (t : Nat) :
      mapLookup s.instances id = some inst → inst.status = .running →
      VStep cfg s (markActiveState s id inst t)
  /-- `start` when no running instance exists and the pool is
  non-empty, reaching `running` (readiness succeeded). -/
  | startSuccess (s : ManagerState) (id : String) (p : Nat) (rest : List Nat) (t : Nat) :
      (∀ inst, mapLookup s.instances id = some inst → inst.status ≠ .running) →
      s.portPool = p :: rest →
      VStep cfg s (startSuccessState s id p rest t)
  /-- `start` when no running instance exists and the pool is
  non-empty, but spawn/readiness fails: the `catch` block releases the
  allocated port and deletes the record. -/
  | startFail (s : ManagerState) (id : String) (p : Nat) (rest : List Nat) :
      (∀ inst, mapLookup s.instances id = some inst → inst.status ≠ .running) →
      s.portPool = p :: rest →
      VStep cfg s (startFailState s id p rest)
  /-- Explicit `stop` of a registered instance. -/
  | stop (s : ManagerState) (id : String) (inst : ViteInstance) :
      mapLookup s.instances id = some inst →
      VStep cfg s (stopState s id inst)
  /-- Crash `exit` handler: fires when the child exits while the
  status is neither `stopping` nor `stopped`. -/
  | crashExit (s : ManagerState) (id : String) (inst : ViteInstance) :
      mapLookup s.instances id = some inst →
      inst.status ≠ .stopping → inst.status ≠ .stopped →
      VStep cfg s (stopState s id inst)
  /-- One idle-sweep eviction: `cleanupIdle` stops a `running`
  instance whose idle time exceeds `idleTimeout`. -/
  | idleSweep (s : ManagerState) (id : String) (inst : ViteInstance) (now : Nat) :
      mapLookup s.instances id = some inst → inst.status = .running →
      cfg.idleTimeout < now - inst.lastActive →
      VStep cfg s (stopState s id inst)

/-- States reachable from the freshly constructed supervisor. -/
def Reachable (cfg : ViteManagerConfig) (s : ManagerState) : Prop :=
  Relation.ReflTransGen (VStep cfg) (initState cfg) s

/-- Number of instances whose status is `running` or `starting`. -/
def countLive (s : ManagerState) : Nat :=
  (s.instances.filter (fun p =>
    p.2.status == ViteStatus.running || p.2.status == ViteStatus.starting)).length

/-! ## Readiness poll (`waitForReady`)

The loop polls `HEAD http://localhost:<port>` and accepts
`response.ok || response.status === 404` — that is, any status in
200–299, or 404.  One iteration is modelled as one 200 ms tick;
`responses k` is the outcome of the poll at elapsed time `200·k`
(`none` is a network error, i.e. the `catch` branch). -/

/-- Acceptance test of the poll: `response.ok || status === 404`. -/
def acceptsStatus (s : Nat) : Bool :=
  (200 ≤ s && s < 300) || s == 404

/-- The polling loop: while `Date.now() - start < startupTimeout`,
fetch and test, then sleep 200 ms. -/
def waitForReadyLoop (startupTimeout : Nat) (responses : Nat → Option Nat)
    (k : Nat) : Bool :=
  if _h : 200 * k < startupTimeout then
    match responses k with
    | some s => if acceptsStatus s then true else
        waitForReadyLoop startupTimeout responses (k + 1)
    | none => waitForReadyLoop startupTimeout responses (k + 1)
  else false
termination_by startupTimeout - 200 * k
decreasing_by all_goals omega

/-- Embedding of `waitForReady`: `true` means the server became ready
before the startup timeout, `false` means the timeout error is
thrown. -/
def waitForReady (cfg : ViteManagerConfig) (responses : Nat → Option Nat) : Bool :=
  waitForReadyLoop cfg.startupTimeout responses 0

/-! ## Map-model lemmas for the supervisor -/

theorem mapLookup_mem {l : List (String × ViteInstance)} {id : String}
    {v : ViteInstance} (h : mapLookup l id = some v) : (id, v) ∈ l := by
  induction l with
  | nil => cases h
  | cons pr rest ih =>
    obtain ⟨k, w⟩ := pr
    by_cases hk : k = id
    · rw [mapLookup, if_pos hk] at h
      subst hk
      rw [Option.some.inj h]
      exact List.mem_cons_self _ _
    · rw [mapLookup, if_neg hk] at h
      exact List.mem_cons_of_mem _ (ih h)

theorem mapLookup_eq_none_iff {l : List (String × ViteInstance)} {id : String} :
    mapLookup l id = none ↔ id ∉ l.map Prod.fst := by
  induction l with
  | nil => simp [mapLookup]
  | cons pr rest ih =>
    obtain ⟨k, w⟩ := pr
    by_cases hk : k = id
    · subst hk
      simp [mapLookup]
    · rw [mapLookup, if_neg hk]
      simp only [List.map_cons, List.mem_cons]
      rw [ih]
      constructor
      · intro h hmem
        rcases hmem with h1 | h1
        · exact hk h1.symm
        · exact h h1
      · intro h hmem
        exact h (Or.inr hmem)

theorem mapSet_of_none {l : List (String × ViteInstance)} {id : String}
    (v : ViteInstance) (h : mapLookup l id = none) :
    mapSet l id v = l ++ [(id, v)] := by
  induction l with
  | nil => rfl
  | cons pr rest ih =>
    obtain ⟨k, w⟩ := pr
    by_cases hk : k = id
    · rw [mapLookup, if_pos hk] at h
      cases h
    · rw [mapLookup, if_neg hk] at h
      rw [mapSet, if_neg hk, ih h]
      rfl

/-- Decomposition at a found key: the map splits as
`l₁ ++ (id, w) :: l₂` with no earlier `id`, and `mapSet` replaces
exactly that entry. -/
theorem mapLookup_decomp {l : List (String × ViteInstance)} {id : String}
    {w : ViteInstance} (v : ViteInstance) (h : mapLookup l id = some w) :
    ∃ l₁ l₂, l = l₁ ++ (id, w) :: l₂ ∧
      mapSet l id v = l₁ ++ (id, v) :: l₂ ∧
      id ∉ l₁.map Prod.fst := by
  induction l with
  | nil => cases h
  | cons pr rest ih =>
    obtain ⟨k, u⟩ := pr
    by_cases hk : k = id
    · subst hk
      rw [mapLookup, if_pos rfl] at h
      refine ⟨[], rest, ?_, ?_, by simp⟩
      · rw [Option.some.inj h]
        rfl
      · rw [mapSet, if_pos rfl]
        rfl
    · rw [mapLookup, if_neg hk] at h
      obtain ⟨l₁, l₂, heq, hset, hnot⟩ := ih h
      refine ⟨(k, u) :: l₁, l₂, by rw [heq]; rfl, ?_, ?_⟩
      · rw [mapSet, if_neg hk, hset]
        rfl
      · simp only [List.map_cons, List.mem_cons]
        intro hmem
        rcases hmem with h1 | h1
        · exact hk h1.symm
        · exact hnot h1

theorem mapDelete_of_not_mem {l : List (String × ViteInstance)} {id : String}
    (h : id ∉ l.map Prod.fst) : mapDelete l id = l := by
  rw [mapDelete, List.filter_eq_self]
  intro pr hpr
  simp only [ne_eq, decide_eq_true_eq]
  intro heq
  exact h (heq ▸ List.mem_map_of_mem Prod.fst hpr)

theorem mapDelete_mapSet (l : List (String × ViteInstance)) (id : String)
    (v : ViteInstance) : mapDelete (mapSet l id v) id = mapDelete l id := by
  induction l with
  | nil => simp [mapSet, mapDelete]
  | cons pr rest ih =>
    obtain ⟨k, w⟩ := pr
    by_cases hk : k = id
    · subst hk
      rw [mapSet, if_pos rfl]
      simp [mapDelete]
    · rw [mapSet, if_neg hk]
      simp only [mapDelete, ne_eq, decide_not] at ih ⊢
      simp [List.filter_cons, hk, ih]

theorem mapLookup_mapDelete (l : List (String × ViteInstance)) (id : String) :
    mapLookup (mapDelete l id) id = none := by
  rw [mapLookup_eq_none_iff]
  intro hmem
  rcases List.mem_map.mp hmem with ⟨pr, hpr, heq⟩
  have := (List.mem_filter.mp hpr).2
  simp only [ne_eq, decide_eq_true_eq] at this
  exact this heq

theorem releasePort_mem (pool : List Nat) (p : Nat) :
    p ∈ releasePort pool p := by
  rw [releasePort]
  by_cases h : p ∈ pool
  · rwa [if_pos h]
  · rw [if_neg h]
    simp

theorem releasePort_of_not_mem {pool : List Nat} {p : Nat} (h : p ∉ pool) :
    releasePort pool p = pool ++ [p] := by
  rw [releasePort, if_neg h]

/-! ## The supervisor's inductive invariant -/

/-- Strengthened invariant: in every reachable state all registered
instances are `running`, keys and ports are distinct, instance ports
do not sit in the pool, and ports are conserved. -/
structure GoodState (cfg : ViteManagerConfig) (s : ManagerState) : Prop where
  allRunning : ∀ pr ∈ s.instances, pr.2.status = ViteStatus.running
  keysNodup : (s.instances.map Prod.fst).Nodup
  poolNodup : s.portPool.Nodup
  portsDisjoint : ∀ pr ∈ s.instances, pr.2.port ∉ s.portPool
  portsNodup : (s.instances.map (fun pr => pr.2.port)).Nodup
  count : s.portPool.length + s.instances.length = cfg.maxInstances

theorem goodState_init (cfg : ViteManagerConfig) :
    GoodState cfg (initState cfg) := by
  refine ⟨?_, ?_, ?_, ?_, ?_, ?_⟩
  · intro pr hpr; cases hpr
  · simp [initState]
  · exact List.Nodup.map (fun a b h => by omega) (List.nodup_range _)
  · intro pr hpr; cases hpr
  · simp [initState]
  · simp [initState]

/-- In a good state, the `start` guard (no running instance) forces
the lookup to be empty. -/
theorem lookup_none_of_guard {cfg : ViteManagerConfig} {s : ManagerState}
    (h : GoodState cfg s) {id : String}
    (hg : ∀ inst, mapLookup s.instances id = some inst →
      inst.status ≠ ViteStatus.running) :
    mapLookup s.instances id = none := by
  cases hml : mapLookup s.instances id with
  | none => rfl
  | some w => exact absurd (h.allRunning _ (mapLookup_mem hml)) (hg w hml)

/-- Stopping (or crash-reaping, or idle-evicting) a registered
instance preserves the invariant. -/
theorem goodState_stop {cfg : ViteManagerConfig} {s : ManagerState}
    (h : GoodState cfg s) {id : String} {inst : ViteInstance}
    (hml : mapLookup s.instances id = some inst) :
    GoodState cfg (stopState s id inst) := by
  obtain ⟨l₁, l₂, heq, -, hnotl₁⟩ := mapLookup_decomp inst hml
  have hkeys := h.keysNodup
  rw [heq] at hkeys
  simp only [List.map_append, List.map_cons] at hkeys
  have hid_l₂ : id ∉ l₂.map Prod.fst :=
    (List.nodup_cons.mp (List.nodup_append.mp hkeys).2.1).1
  have hdel : mapDelete s.instances id = l₁ ++ l₂ := by
    have h₁ : mapDelete l₁ id = l₁ := mapDelete_of_not_mem hnotl₁
    have h₂ : mapDelete l₂ id = l₂ := mapDelete_of_not_mem hid_l₂
    rw [heq]
    simp only [mapDelete, List.filter_append, List.filter_cons] at h₁ h₂ ⊢
    rw [h₁, h₂]
    simp
  have hports := h.portsNodup
  rw [heq] at hports
  simp only [List.map_append, List.map_cons] at hports
  have hport_l₁ : inst.port ∉ l₁.map (fun pr => pr.2.port) := by
    intro hmem
    exact (List.nodup_append.mp hports).2.2 hmem (List.mem_cons_self _ _)
  have hport_l₂ : inst.port ∉ l₂.map (fun pr => pr.2.port) :=
    (List.nodup_cons.mp (List.nodup_append.mp hports).2.1).1
  have hport_pool : inst.port ∉ s.portPool :=
    h.portsDisjoint _ (mapLookup_mem hml)
  have hpool : (stopState s id inst).portPool = s.portPool ++ [inst.port] := by
    simp only [stopState]
    exact releasePort_of_not_mem hport_pool
  refine ⟨?_, ?_, ?_, ?_, ?_, ?_⟩
  · intro pr hpr
    exact h.allRunning _ (List.mem_of_mem_filter hpr)
  · show ((mapDelete s.instances id).map Prod.fst).Nodup
    rw [hdel, List.map_append]
    exact List.Nodup.sublist
      ((List.sublist_cons_self id (l₂.map Prod.fst)).append_left _)
      (by simpa using hkeys)
  · rw [hpool]
    refine List.Nodup.append h.poolNodup (List.nodup_singleton _) ?_
    intro a ha hb
    rw [List.mem_singleton] at hb
    exact hport_pool (hb ▸ ha)
  · intro pr hpr
    rw [hpool]
    intro hmem
    rcases List.mem_append.mp hmem with hin | hin
    · exact h.portsDisjoint _ (List.mem_of_mem_filter hpr) hin
    · rw [List.mem_singleton] at hin
      have hpr' : pr ∈ l₁ ++ l₂ := by
        have : (stopState s id inst).instances = l₁ ++ l₂ := by
          simp only [stopState]; exact hdel
        rw [← this]; exact hpr
      rcases List.mem_append.mp hpr' with h1 | h1
      · exact hport_l₁ (hin ▸ List.mem_map_of_mem _ h1)
      · exact hport_l₂ (hin ▸ List.mem_map_of_mem _ h1)
  · show ((mapDelete s.instances id).map (fun pr => pr.2.port)).Nodup
    rw [hdel, List.map_append]
    exact List.Nodup.sublist
      ((List.sublist_cons_self inst.port (l₂.map _)).append_left _)
      (by simpa using hports)
  · have hlen : s.instances.length = l₁.length + 1 + l₂.length := by
      rw [heq]; simp; omega
    have hc := h.count
    rw [hlen] at hc
    show (releasePort s.portPool inst.port).length +
      (mapDelete s.instances id).length = cfg.maxInstances
    rw [releasePort_of_not_mem hport_pool, hdel]
    simp only [List.length_append, List.length_cons, List.length_nil]
    omega

/-- One supervisor step preserves the invariant. -/
theorem goodState_step {cfg : ViteManagerConfig} {s s' : ManagerState}
    (h : GoodState cfg s) (hs : VStep cfg s s') : GoodState cfg s' := by
  cases hs with
  | startExisting id inst t hml hrun =>
    obtain ⟨l₁, l₂, heq, hset, hnotl₁⟩ :=
      mapLookup_decomp { inst with lastActive := t } hml
    have hinsts : (markActiveState s id inst t).instances =
        l₁ ++ (id, { inst with lastActive := t }) :: l₂ := hset
    refine ⟨?_, ?_, h.poolNodup, ?_, ?_, ?_⟩
    · intro pr hpr
      rw [hinsts] at hpr
      rcases List.mem_append.mp hpr with h1 | h1
      · exact h.allRunning _ (heq ▸ List.mem_append_left _ h1)
      · rcases List.mem_cons.mp h1 with rfl | h1
        · exact hrun
        · exact h.allRunning _ (heq ▸ List.mem_append_right _
            (List.mem_cons_of_mem _ h1))
    · show ((markActiveState s id inst t).instances.map Prod.fst).Nodup
      rw [hinsts]
      have := h.keysNodup
      rw [heq] at this
      simpa using this
    · intro pr hpr
      rw [hinsts] at hpr
      show pr.2.port ∉ s.portPool
      rcases List.mem_append.mp hpr with h1 | h1
      · exact h.portsDisjoint _ (heq ▸ List.mem_append_left _ h1)
      · rcases List.mem_cons.mp h1 with rfl | h1
        · exact h.portsDisjoint (id, inst) (heq ▸ List.mem_append_right _
            (List.mem_cons_self _ _))
        · exact h.portsDisjoint _ (heq ▸ List.mem_append_right _
            (List.mem_cons_of_mem _ h1))
    · show ((markActiveState s id inst t).instances.map
        (fun pr => pr.2.port)).Nodup
      rw [hinsts]
      have := h.portsNodup
      rw [heq] at this
      simpa using this
    · show s.portPool.length + (markActiveState s id inst t).instances.length
        = cfg.maxInstances
      rw [hinsts]
      have := h.count
      rw [heq] at this
      simpa using this
  | startSuccess id p rest t hg hpool =>
    have hnone := lookup_none_of_guard h hg
    have hid : id ∉ s.instances.map Prod.fst := mapLookup_eq_none_iff.mp hnone
    have hinsts : (startSuccessState s id p rest t).instances =
        s.instances ++ [(id, ⟨p, .running, t, t⟩)] := mapSet_of_none _ hnone
    have hp_rest : p ∉ rest := by
      have := h.poolNodup
      rw [hpool] at this
      exact (List.nodup_cons.mp this).1
    refine ⟨?_, ?_, ?_, ?_, ?_, ?_⟩
    · intro pr hpr
      rw [hinsts] at hpr
      rcases List.mem_append.mp hpr with h1 | h1
      · exact h.allRunning _ h1
      · rw [List.mem_singleton] at h1
        rw [h1]
    · show ((startSuccessState s id p rest t).instances.map Prod.fst).Nodup
      rw [hinsts, List.map_append]
      refine List.Nodup.append h.keysNodup (by simp) ?_
      intro a ha hb
      simp only [List.map_cons, List.map_nil, List.mem_singleton] at hb
      exact hid (hb ▸ ha)
    · have := h.poolNodup
      rw [hpool] at this
      exact (List.nodup_cons.mp this).2
    · intro pr hpr
      show pr.2.port ∉ rest
      rw [hinsts] at hpr
      rcases List.mem_append.mp hpr with h1 | h1
      · intro hmem
        exact h.portsDisjoint _ h1 (hpool ▸ List.mem_cons_of_mem _ hmem)
      · rw [List.mem_singleton] at h1
        rw [h1]
        exact hp_rest
    · show ((startSuccessState s id p rest t).instances.map
        (fun pr => pr.2.port)).Nodup
      rw [hinsts, List.map_append]
      refine List.Nodup.append h.portsNodup (by simp) ?_
      intro a ha hb
      simp only [List.map_cons, List.map_nil, List.mem_singleton] at hb
      subst hb
      rcases List.mem_map.mp ha with ⟨pr, hpr, hport⟩
      exact h.portsDisjoint _ hpr (by rw [hport, hpool]; exact List.mem_cons_self _ _)
    · show rest.length + (startSuccessState s id p rest t).instances.length
        = cfg.maxInstances
      rw [hinsts]
      have := h.count
      rw [hpool] at this
      simp only [List.length_append, List.length_cons, List.length_nil] at this ⊢
      omega
  | startFail id p rest hg hpool =>
    have hnone := lookup_none_of_guard h hg
    have hid : id ∉ s.instances.map Prod.fst := mapLookup_eq_none_iff.mp hnone
    have hinsts : (startFailState s id p rest).instances = s.instances := by
      simp only [startFailState]
      rw [mapDelete_mapSet]
      exact mapDelete_of_not_mem hid
    have hp_rest : p ∉ rest := by
      have := h.poolNodup
      rw [hpool] at this
      exact (List.nodup_cons.mp this).1
    have hpool' : (startFailState s id p rest).portPool = rest ++ [p] := by
      simp only [startFailState]
      exact releasePort_of_not_mem hp_rest
    refine ⟨?_, ?_, ?_, ?_, ?_, ?_⟩
    · intro pr hpr
      exact h.allRunning _ (hinsts ▸ hpr)
    · rw [hinsts]; exact h.keysNodup
    · rw [hpool']
      refine List.Nodup.append ?_ (by simp) ?_
      · have := h.poolNodup
        rw [hpool] at this
        exact (List.nodup_cons.mp this).2
      · intro a ha hb
        rw [List.mem_singleton] at hb
        exact hp_rest (hb ▸ ha)
    · intro pr hpr
      rw [hpool']
      rw [hinsts] at hpr
      intro hmem
      rcases List.mem_append.mp hmem with h1 | h1
      · exact h.portsDisjoint _ hpr (hpool ▸ List.mem_cons_of_mem _ h1)
      · rw [List.mem_singleton] at h1
        exact h.portsDisjoint _ hpr (by rw [h1, hpool]; exact List.mem_cons_self _ _)
    · rw [hinsts]; exact h.portsNodup
    · rw [hinsts, hpool']
      have := h.count
      rw [hpool] at this
      simp only [List.length_append, List.length_cons, List.length_nil] at this ⊢
      omega
  | stop id inst hml => exact goodState_stop h hml
  | crashExit id inst hml _ _ => exact goodState_stop h hml
  | idleSweep id inst now hml _ _ => exact goodState_stop h hml

/-- Every reachable supervisor state satisfies the invariant. -/
theorem goodState_reachable {cfg : ViteManagerConfig} {s : ManagerState}
    (h : Reachable cfg s) : GoodState cfg s := by
  induction h with
  | refl => exact goodState_init cfg
  | tail _ hstep ih => exact goodState_step ih hstep

/-! ## Claim C1: port conservation -/

/-- C1.  In every state reachable by any sequence of `start`, `stop`,
crash-`exit`, and idle-sweep steps, the number of free ports plus the
number of instances whose status is `running` or `starting` equals
`maxInstances`. -/
theorem port_conservation (cfg : ViteManagerConfig) (s : ManagerState)
    (h : Reachable cfg s) :
    s.portPool.length + countLive s = cfg.maxInstances := by
  have hg := goodState_reachable h
  have hcl : countLive s = s.instances.length := by
    unfold countLive
    rw [List.filter_eq_self.mpr]
    intro pr hpr
    rw [hg.allRunning pr hpr]
    rfl
  rw [hcl]
  exact hg.count

/-- Witness for C1: with `maxInstances = 2`, after one successful
`start` the free-port count plus the live-instance count is still 2. -/
theorem port_conservation_witness :
    (startSuccessState
        (initState ⟨5200, 2, 1800000, 60000⟩) "p1" 5200 [5201] 7).portPool.length +
      countLive (startSuccessState
        (initState ⟨5200, 2, 1800000, 60000⟩) "p1" 5200 [5201] 7) = 2 := by
  have hstep : VStep ⟨5200, 2, 1800000, 60000⟩
      (initState ⟨5200, 2, 1800000, 60000⟩)
      (startSuccessState (initState ⟨5200, 2, 1800000, 60000⟩) "p1" 5200 [5201] 7) :=
    VStep.startSuccess _ "p1" 5200 [5201] 7
      (by intro inst hml; simp [initState, mapLookup] at hml)
      (by decide)
  exact port_conservation _ _
    (Relation.ReflTransGen.tail Relation.ReflTransGen.refl hstep)

/-! ## Claim C5: readiness poll and failure cleanup -/

/-- The loop returns false once the deadline has passed. -/
theorem waitForReadyLoop_timeout (t : Nat) (r : Nat → Option Nat) (k : Nat)
    (h : ¬ 200 * k < t) : waitForReadyLoop t r k = false := by
  rw [waitForReadyLoop, dif_neg h]

/-- In-deadline poll with an HTTP response: test it, else continue. -/
theorem waitForReadyLoop_poll_some (t : Nat) (r : Nat → Option Nat) (k s : Nat)
    (h : 200 * k < t) (hr : r k = some s) :
    waitForReadyLoop t r k =
      if acceptsStatus s then true else waitForReadyLoop t r (k + 1) := by
  rw [waitForReadyLoop, dif_pos h, hr]

/-- In-deadline poll with a network error: continue. -/
theorem waitForReadyLoop_poll_none (t : Nat) (r : Nat → Option Nat) (k : Nat)
    (h : 200 * k < t) (hr : r k = none) :
    waitForReadyLoop t r k = waitForReadyLoop t r (k + 1) := by
  rw [waitForReadyLoop, dif_pos h, hr]

/-- The loop from tick `k` succeeds exactly when some in-deadline poll
at tick `j ≥ k` returns an accepted status.  The fuel `d` bounds the
remaining ticks. -/
theorem waitForReadyLoop_iff (t : Nat) (r : Nat → Option Nat) :
    ∀ (d k : Nat), t ≤ 200 * k + 200 * d →
      (waitForReadyLoop t r k = true ↔
        ∃ j, k ≤ j ∧ 200 * j < t ∧
          ∃ s, r j = some s ∧ acceptsStatus s = true) := by
  intro d
  induction d with
  | zero =>
    intro k hk
    rw [waitForReadyLoop_timeout t r k (by omega)]
    constructor
    · intro h; cases h
    · rintro ⟨j, hj, hjt, -⟩
      exfalso; omega
  | succ d ih =>
    intro k hk
    by_cases hcond : 200 * k < t
    · cases hr : r k with
      | some s =>
        rw [waitForReadyLoop_poll_some t r k s hcond hr]
        by_cases hacc : acceptsStatus s = true
        · rw [if_pos hacc]
          constructor
          · intro _
            exact ⟨k, le_refl k, hcond, s, hr, hacc⟩
          · intro _; rfl
        · rw [if_neg hacc, ih (k + 1) (by omega)]
          constructor
          · rintro ⟨j, hj, hjt, hs⟩
            exact ⟨j, by omega, hjt, hs⟩
          · rintro ⟨j, hj, hjt, s', hs', hacc'⟩
            have hne : j ≠ k := by
              rintro rfl
              rw [hr] at hs'
              exact hacc ((Option.some.inj hs') ▸ hacc')
            exact ⟨j, by omega, hjt, s', hs', hacc'⟩
      | none =>
        rw [waitForReadyLoop_poll_none t r k hcond hr, ih (k + 1) (by omega)]
        constructor
        · rintro ⟨j, hj, hjt, hs⟩
          exact ⟨j, by omega, hjt, hs⟩
        · rintro ⟨j, hj, hjt, s', hs', hacc'⟩
          have hne : j ≠ k := by
            rintro rfl
            rw [hr] at hs'
            cases hs'
          exact ⟨j, by omega, hjt, s', hs', hacc'⟩
    · rw [waitForReadyLoop_timeout t r k hcond]
      constructor
      · intro h; cases h
      · rintro ⟨j, hj, hjt, -⟩
        exfalso; omega

/-- The Boolean acceptance test spelled out as a proposition. -/
theorem acceptsStatus_iff (s : Nat) :
    acceptsStatus s = true ↔ ((200 ≤ s ∧ s < 300) ∨ s = 404) := by
  simp [acceptsStatus]

/-- C5 (amended).  The claim's acceptance set is wrong: the code tests
`response.ok || response.status === 404`, and `ok` covers every status
in 200–299, not only 200 (see the counterexample at 204).  Amended:
with the default configuration, the startup poll (one `HEAD` probe per
200 ms tick) succeeds exactly when some probe inside the 60 s deadline
returns a status in 200–299 or 404; otherwise the loop returns false
and `start` throws the startup-timeout error; and the failure path of
`start` leaves no record for the project and returns the allocated
port to the pool. -/
theorem waitForReady_readiness_and_cleanup :
    (∀ (responses : Nat → Option Nat),
      waitForReady DEFAULT_CONFIG responses = true ↔
        ∃ k, 200 * k < 60000 ∧
          ∃ s, responses k = some s ∧ ((200 ≤ s ∧ s < 300) ∨ s = 404)) ∧
    (∀ (s : ManagerState) (id : String) (p : Nat) (rest : List Nat),
      mapLookup (startFailState s id p rest).instances id = none ∧
      p ∈ (startFailState s id p rest).portPool) := by
  constructor
  · intro responses
    have h := waitForReadyLoop_iff 60000 responses 301 0 (by omega)
    rw [waitForReady] at *
    show waitForReadyLoop DEFAULT_CONFIG.startupTimeout responses 0 = true ↔ _
    have hdt : DEFAULT_CONFIG.startupTimeout = 60000 := rfl
    rw [hdt, h]
    constructor
    · rintro ⟨j, -, hjt, s, hs, hacc⟩
      exact ⟨j, hjt, s, hs, (acceptsStatus_iff s).mp hacc⟩
    · rintro ⟨k, hkt, s, hs, hacc⟩
      exact ⟨k, Nat.zero_le k, hkt, s, hs, (acceptsStatus_iff s).mpr hacc⟩
  · intro s id p rest
    refine ⟨?_, releasePort_mem rest p⟩
    simp only [startFailState]
    exact mapLookup_mapDelete _ id

/-- Counterexample to C5 as frozen: a server that always answers 204
is accepted as ready, although 204 is neither 200 nor 404 — the code
accepts any `response.ok` status (200–299), not only 200. -/
theorem waitForReady_accepts_204 :
    waitForReady DEFAULT_CONFIG (fun _ => some 204) = true ∧
    204 ≠ 200 ∧ 204 ≠ 404 := by
  refine ⟨?_, by decide, by decide⟩
  rw [waitForReady,
    waitForReadyLoop_poll_some _ _ 0 204 (by norm_num [DEFAULT_CONFIG]) rfl]
  norm_num [acceptsStatus]

/-! ## Reverse proxy HTML injection (`src/index.ts`)

The proxy route computes `pathAfterProject` by deleting the first
occurrence of `/p/<projectId>` from the full request path (empty
result coerced to `/`); when it is exactly `/` or `/index.html` the
response goes through `injectScripts`, which rewrites only bodies
whose `content-type` contains `text/html`, inserting the `<base>` tag
and the visual-edit script after the first `<head>` (falling back to
`<HEAD>`).  All other responses keep their body. -/

structure UpstreamResponse where
  status : Nat
  contentType : Option String
  body : String
  deriving Repr, DecidableEq

/-- The injected snippet of `injectScripts` (template literal with
`baseHref = "/p/" ++ projectId ++ "/"`). -/
def injectedContent (projectId : String) : String :=
  "\n    <base href=\"/p/" ++ projectId ++ "/\">\n    " ++
    "<script type=\"module\" src=\"/static/visual-edit-script.js\"></script>"

/-- Embedding of `injectScripts`. -/
def injectScripts (resp : UpstreamResponse) (projectId : String) :
    UpstreamResponse :=
  let contentType := resp.contentType.getD ""
  if ¬ jsIncludes contentType "text/html" then resp
  else
    let injected := injectedContent projectId
    let html :=
      if jsIncludes resp.body "<head>" then
        jsReplaceFirst resp.body "<head>" ("<head>" ++ injected)
      else if jsIncludes resp.body "<HEAD>" then
        jsReplaceFirst resp.body "<HEAD>" ("<HEAD>" ++ injected)
      else resp.body
    { resp with body := html }

/-- Embedding of the response side of the `/p/:projectId/*` handler:
inject on the root HTML paths, relay everything else untouched. -/
def proxyResponse (fullPath projectId : String) (resp : UpstreamResponse) :
    UpstreamResponse :=
  let pathAfterProject0 := jsReplaceFirst fullPath ("/p/" ++ projectId) ""
  let pathAfterProject := if pathAfterProject0 = "" then "/" else pathAfterProject0
  if pathAfterProject = "/" ∨ pathAfterProject = "/index.html" then
    injectScripts resp projectId
  else resp

/-! ## Claim C8 lemmas -/

/-- Deleting a pattern that sits at the front of the list. -/
theorem listReplaceFirst_of_prefix (pat repl l : List Char) (hne : pat ≠ []) :
    listReplaceFirst pat repl (pat ++ l) = repl ++ l := by
  match pat, hne with
  | p :: ps, _ =>
    rw [show ((p :: ps) ++ l) = p :: (ps ++ l) from rfl, listReplaceFirst]
    rw [if_pos (List.isPrefixOf_iff_prefix.mpr ⟨l, by simp⟩)]
    congr 1
    exact List.drop_left (p :: ps) l

/-- Splitting a list at the first occurrence of a pattern:
`listReplaceFirst` replaces exactly that occurrence. -/
theorem listReplaceFirst_decomp {pat l : List Char} (repl : List Char)
    (hne : pat ≠ []) (h : listContainsSubstr pat l = true) :
    ∃ pre suff, l = pre ++ pat ++ suff ∧
      listReplaceFirst pat repl l = pre ++ repl ++ suff := by
  induction l with
  | nil =>
    rw [listContainsSubstr] at h
    exact absurd (List.isEmpty_iff.mp h) hne
  | cons x xs ih =>
    by_cases hp : pat.isPrefixOf (x :: xs) = true
    · obtain ⟨suff, hsuff⟩ := List.isPrefixOf_iff_prefix.mp hp
      refine ⟨[], suff, by simp [← hsuff], ?_⟩
      rw [listReplaceFirst]
      rw [if_pos hp, ← hsuff]
      simp [List.drop_left]
    · rw [listContainsSubstr] at h
      rw [Bool.or_eq_true] at h
      rcases h with h | h
      · exact absurd h hp
      · obtain ⟨pre, suff, heq, hrepl⟩ := ih h
        refine ⟨x :: pre, suff, by rw [heq]; rfl, ?_⟩
        rw [listReplaceFirst, if_neg hp, hrepl]
        rfl

/-- The tail after deleting the `/p/<id>` prefix is the literal tail. -/
theorem jsReplaceFirst_path_tail (projectId tail : String) :
    jsReplaceFirst ("/p/" ++ projectId ++ tail) ("/p/" ++ projectId) "" = tail := by
  apply String.ext
  rw [jsReplaceFirst, String.data_mk]
  have hdata : ("/p/" ++ projectId ++ tail).data =
      ("/p/" ++ projectId).data ++ tail.data := data_append _ _
  rw [hdata, listReplaceFirst_of_prefix _ _ _ ?hne]
  · rfl
  case hne =>
    intro hnil
    have : ("/p/" ++ projectId).data.length = 0 := by rw [hnil]; rfl
    rw [data_append] at this
    simp at this

/-- C8.  Only responses whose tail is exactly `/` or `/index.html`
*and* whose content type contains `text/html` are rewritten; a
rewritten body is the upstream body with the `<base>`+script snippet
spliced in right after the first `<head>` (or `<HEAD>` when no
lowercase `<head>` occurs); every other response's body is returned
byte-for-byte. -/
theorem proxy_injection_specificity :
    (∀ (projectId tail : String) (resp : UpstreamResponse),
      tail ≠ "/" → tail ≠ "/index.html" → tail ≠ "" →
      (proxyResponse ("/p/" ++ projectId ++ tail) projectId resp).body = resp.body) ∧
    (∀ (projectId tail : String) (resp : UpstreamResponse),
      (tail = "/" ∨ tail = "/index.html") →
      jsIncludes (resp.contentType.getD "") "text/html" = false →
      (proxyResponse ("/p/" ++ projectId ++ tail) projectId resp).body = resp.body) ∧
    (∀ (projectId tail : String) (resp : UpstreamResponse),
      (tail = "/" ∨ tail = "/index.html") →
      jsIncludes (resp.contentType.getD "") "text/html" = true →
      jsIncludes resp.body "<head>" = true →
      ∃ pre suff, resp.body.data = pre ++ "<head>".data ++ suff ∧
        (proxyResponse ("/p/" ++ projectId ++ tail) projectId resp).body.data =
          pre ++ ("<head>" ++ injectedContent projectId).data ++ suff) ∧
    (∀ (projectId tail : String) (resp : UpstreamResponse),
      (tail = "/" ∨ tail = "/index.html") →
      jsIncludes (resp.contentType.getD "") "text/html" = true →
      jsIncludes resp.body "<head>" = false →
      jsIncludes resp.body "<HEAD>" = true →
      ∃ pre suff, resp.body.data = pre ++ "<HEAD>".data ++ suff ∧
        (proxyResponse ("/p/" ++ projectId ++ tail) projectId resp).body.data =
          pre ++ ("<HEAD>" ++ injectedContent projectId).data ++ suff) := by
  refine ⟨?_, ?_, ?_, ?_⟩
  · intro projectId tail resp h1 h2 h3
    rw [proxyResponse]
    simp only [jsReplaceFirst_path_tail, if_neg h3]
    rw [if_neg (by rintro (h | h); exacts [h1 h, h2 h])]
  · intro projectId tail resp htail hct
    rw [proxyResponse]
    simp only [jsReplaceFirst_path_tail]
    have htail_ne : ¬ tail = "" := by
      rcases htail with rfl | rfl <;> decide
    rw [if_neg htail_ne, if_pos htail, injectScripts]
    simp only [hct]
    rfl
  · intro projectId tail resp htail hct hhead
    obtain ⟨pre, suff, heq, hrepl⟩ :=
      listReplaceFirst_decomp (l := resp.body.data)
        ("<head>" ++ injectedContent projectId).data (by decide) hhead
    refine ⟨pre, suff, by simpa using heq, ?_⟩
    rw [proxyResponse]
    simp only [jsReplaceFirst_path_tail]
    have htail_ne : ¬ tail = "" := by
      rcases htail with rfl | rfl <;> decide
    rw [if_neg htail_ne, if_pos htail, injectScripts]
    simp only [hct, Bool.not_true, if_neg (by simp : ¬ (false = true)), hhead,
      if_pos]
    show (jsReplaceFirst resp.body "<head>" ("<head>" ++ injectedContent projectId)).data
      = pre ++ ("<head>" ++ injectedContent projectId).data ++ suff
    rw [jsReplaceFirst, String.data_mk, hrepl]
  · intro projectId tail resp htail hct hhead hHEAD
    obtain ⟨pre, suff, heq, hrepl⟩ :=
      listReplaceFirst_decomp (l := resp.body.data)
        ("<HEAD>" ++ injectedContent projectId).data (by decide) hHEAD
    refine ⟨pre, suff, by simpa using heq, ?_⟩
    rw [proxyResponse]
    simp only [jsReplaceFirst_path_tail]
    have htail_ne : ¬ tail = "" := by
      rcases htail with rfl | rfl <;> decide
    rw [if_neg htail_ne, if_pos htail, injectScripts]
    simp only [hct, Bool.not_true, if_neg (by simp : ¬ (false = true)), hhead,
      hHEAD, if_pos]
    show (jsReplaceFirst resp.body "<HEAD>" ("<HEAD>" ++ injectedContent projectId)).data
      = pre ++ ("<HEAD>" ++ injectedContent projectId).data ++ suff
    rw [jsReplaceFirst, String.data_mk, hrepl]

/-- Witness for C8 at concrete inputs: a CSS asset is relayed
unchanged; the root HTML page gets the snippet after `<head>`. -/
theorem proxy_injection_specificity_witness :
    (proxyResponse "/p/p1/assets/app.css" "p1"
      { status := 200, contentType := some "text/css",
        body := "css-bytes" }).body = "css-bytes" ∧
    ∃ pre suff,
      ("<html><head></head></html>" : String).data =
        pre ++ ("<head>" : String).data ++ suff ∧
      (proxyResponse "/p/p1/" "p1"
        { status := 200, contentType := some "text/html",
          body := "<html><head></head></html>" }).body.data =
        pre ++ ("<head>" ++ injectedContent "p1").data ++ suff := by
  constructor
  · exact proxy_injection_specificity.1 "p1" "/assets/app.css"
      { status := 200, contentType := some "text/css", body := "css-bytes" }
      (by decide) (by decide) (by decide)
  · exact proxy_injection_specificity.2.2.1 "p1" "/"
      { status := 200, contentType := some "text/html",
        body := "<html><head></head></html>" }
      (Or.inl rfl) (by decide) (by decide)

/-! ## Generic string-keyed maps

JavaScript `Map`s and plain objects keep insertion order; both are
modelled as association lists with set-or-append update. -/

def assocLookup {α : Type} : List (String × α) → String → Option α
  | [], _ => none
  | (k, v) :: rest, key => if k = key then some v else assocLookup rest key

def assocSet {α : Type} : List (String × α) → String → α → List (String × α)
  | [], key, v => [(key, v)]
  | (k, w) :: rest, key, v =>
    if k = key then (k, v) :: rest else (k, w) :: assocSet rest key v

theorem assocLookup_set_self {α : Type} (l : List (String × α)) (key : String)
    (v : α) : assocLookup (assocSet l key v) key = some v := by
  induction l with
  | nil => simp [assocSet, assocLookup]
  | cons pr rest ih =>
    obtain ⟨k, w⟩ := pr
    by_cases hk : k = key
    · rw [assocSet, if_pos hk, assocLookup, if_pos hk]
    · rw [assocSet, if_neg hk, assocLookup, if_neg hk]
      exact ih

theorem assocLookup_set_ne {α : Type} (l : List (String × α))
    {key key2 : String} (v : α) (h : key ≠ key2) :
    assocLookup (assocSet l key v) key2 = assocLookup l key2 := by
  induction l with
  | nil => simp [assocSet, assocLookup, h]
  | cons pr rest ih =>
    obtain ⟨k, w⟩ := pr
    by_cases hk : k = key
    · rw [assocSet, if_pos hk, assocLookup, assocLookup]
      subst hk
      rw [if_neg h, if_neg h]
    · rw [assocSet, if_neg hk, assocLookup, assocLookup]
      by_cases hk2 : k = key2
      · rw [if_pos hk2, if_pos hk2]
      · rw [if_neg hk2, if_neg hk2]
        exact ih

theorem assocLookup_append_singleton {α : Type} (l : List (String × α))
    (e : String × α) (key : String) :
    assocLookup (l ++ [e]) key =
      match assocLookup l key with
      | some v => some v
      | none => if e.1 = key then some e.2 else none := by
  induction l with
  | nil => simp [assocLookup]
  | cons pr rest ih =>
    obtain ⟨k, w⟩ := pr
    by_cases hk : k = key
    · simp [assocLookup, hk]
    · simp only [List.cons_append, assocLookup, if_neg hk]
      exact ih

/-! ## Source map manager
(`packages/vite-plugin-jsx-tagger/src/source-map.ts`) and the Vite
plugin transform hook (`scaffolder.ts`, `jsxTaggerPlugin.transform`).

`clearFile` iterates the map and deletes every entry whose recorded
`file` equals the given path; `getByFile` filters the values by file.
The transform hook first calls `clearFile(id)`, then runs Babel's
`transformSync` inside a `try`: on success the visitor has re-recorded
the file's entries and the new code is returned; on a throw the hook
returns `null` and no entry has been re-recorded. -/

structure JsxLocation where
  id : String
  file : String
  line : Nat
  column : Nat
  element : String
  deriving Repr, DecidableEq

/-- The manager's `Map<string, JsxLocation>`. -/
abbrev SourceMap : Type := List (String × JsxLocation)

/-- Embedding of `SourceMapManager.set`. -/
def smSet (m : SourceMap) (id : String) (loc : JsxLocation) : SourceMap :=
  assocSet m id loc

/-- Embedding of `SourceMapManager.clearFile`. -/
def smClearFile (m : SourceMap) (filePath : String) : SourceMap :=
  List.filter (fun pr => pr.2.file ≠ filePath) m

/-- Embedding of `SourceMapManager.getByFile`. -/
def smGetByFile (m : SourceMap) (filePath : String) : List JsxLocation :=
  (m.map Prod.snd).filter (fun loc => loc.file = filePath)

/-- Outcome of Babel's `transformSync` under the tagger plugin: either
transformed code together with the `set` calls the visitor performed,
or a thrown error (e.g. a parse failure, before any visit). -/
inductive TransformOutcome where
  | ok (code : String) (entries : List (String × JsxLocation))
  | err
  deriving Repr

/-- Embedding of the plugin `transform` hook: skip untransformable
files; otherwise drop the file's old entries, then attempt the Babel
transform, recording the new entries on success and returning `null`
(leaving the map cleared) when it throws. -/
def pluginTransform (m : SourceMap) (shouldT : Bool) (fileId : String)
    (outcome : TransformOutcome) : Option String × SourceMap :=
  if ¬ shouldT then (none, m)
  else
    let cleared := smClearFile m fileId
    match outcome with
    | .ok code entries =>
      (some code, entries.foldl (fun acc e => smSet acc e.1 e.2) cleared)
    | .err => (none, cleared)

/-! ## Claim C10: cleared map survives a failed re-transform -/

theorem smGetByFile_clearFile (m : SourceMap) (filePath : String) :
    smGetByFile (smClearFile m filePath) filePath = [] := by
  rw [smGetByFile, List.filter_eq_nil_iff]
  intro loc hmem
  rcases List.mem_map.mp hmem with ⟨pr, hpr, rfl⟩
  have := (List.mem_filter.mp hpr).2
  simp only [ne_eq, decide_not, Bool.not_eq_eq_eq_not, Bool.not_true,
    decide_eq_false_iff_not] at this
  simpa using this

/-- C10.  When the Babel transform of a transformable file throws, the
hook returns `null` (the file is served untransformed), but
`clearFile` already ran before the attempt: the resulting map has no
entry for that file, and every entry previously recorded for it is
gone — the drop-then-reinsert is not atomic with respect to transform
failure. -/
theorem failed_transform_leaves_file_cleared
    (m : SourceMap) (fileId : String) :
    (pluginTransform m true fileId .err).1 = none ∧
    smGetByFile (pluginTransform m true fileId .err).2 fileId = [] ∧
    ∀ pr ∈ m, pr.2.file = fileId →
      pr ∉ (pluginTransform m true fileId .err).2 := by
  refine ⟨rfl, ?_, ?_⟩
  · show smGetByFile (smClearFile m fileId) fileId = []
    exact smGetByFile_clearFile m fileId
  · intro pr hpr hfile hmem
    have := (List.mem_filter.mp hmem).2
    simp only [ne_eq, decide_not, Bool.not_eq_eq_eq_not, Bool.not_true,
      decide_eq_false_iff_not] at this
    exact this hfile

/-- Witness for C10 at a concrete map holding one entry for the failed
file and one for another file. -/
theorem failed_transform_leaves_file_cleared_witness :
    smGetByFile (pluginTransform
      [("aaaa1111", ⟨"aaaa1111", "/src/App.tsx", 3, 10, "div"⟩),
       ("bbbb2222", ⟨"bbbb2222", "/src/Other.tsx", 1, 0, "span"⟩)]
      true "/src/App.tsx" .err).2 "/src/App.tsx" = [] ∧
    ("aaaa1111", (⟨"aaaa1111", "/src/App.tsx", 3, 10, "div"⟩ : JsxLocation)) ∉
      (pluginTransform
        [("aaaa1111", ⟨"aaaa1111", "/src/App.tsx", 3, 10, "div"⟩),
         ("bbbb2222", ⟨"bbbb2222", "/src/Other.tsx", 1, 0, "span"⟩)]
        true "/src/App.tsx" .err).2 := by
  have h := failed_transform_leaves_file_cleared
    [("aaaa1111", ⟨"aaaa1111", "/src/App.tsx", 3, 10, "div"⟩),
     ("bbbb2222", ⟨"bbbb2222", "/src/Other.tsx", 1, 0, "span"⟩)] "/src/App.tsx"
  exact ⟨h.2.1, h.2.2 _ (by simp) rfl⟩

/-! ## Template-path project creation
(`ProjectManager.createProject`, fast path, and
`ProjectManager.mergeUserDependencies`).

A manifest (`package.json` document) is modelled as its two dependency
sections (association lists in JSON key order) plus an opaque `rest`
standing for every other field; `JSON.parse`/`JSON.stringify`
round-trip through this structure.  A project file's content is either
plain text or such a manifest (a user `package.json` whose content is
plain text is one that fails `JSON.parse`). -/

structure PkgJson where
  dependencies : List (String × String)
  devDependencies : List (String × String)
  rest : String
  deriving Repr, DecidableEq

inductive FileContent where
  | text (s : String)
  | pkg (p : PkgJson)
  deriving Repr, DecidableEq

/-- The skip-list of `createProject`: user files with these paths are
not written, preserving the template's versions. -/
def skipFiles : List String :=
  ["package.json", "vite.config.ts", "bun.lock", "bun.lockb",
   "postcss.config.js", "postcss.config.cjs", "postcss.config.mjs",
   "tailwind.config.js", "tailwind.config.ts", "tailwind.config.mjs",
   "tsconfig.json", "tsconfig.node.json"]

/-- The template's core-dependency set of `mergeUserDependencies`
(never overwritten; pre-installed in the template). -/
def coreDeps : List String :=
  ["react", "react-dom", "react-router-dom",
   "clsx", "tailwind-merge", "class-variance-authority", "tw-animate-css",
   "@radix-ui/react-accordion", "@radix-ui/react-alert-dialog",
   "@radix-ui/react-aspect-ratio",
   "@radix-ui/react-avatar", "@radix-ui/react-checkbox",
   "@radix-ui/react-collapsible",
   "@radix-ui/react-context-menu", "@radix-ui/react-dialog",
   "@radix-ui/react-dropdown-menu",
   "@radix-ui/react-hover-card", "@radix-ui/react-icons",
   "@radix-ui/react-label",
   "@radix-ui/react-menubar", "@radix-ui/react-navigation-menu",
   "@radix-ui/react-popover",
   "@radix-ui/react-progress", "@radix-ui/react-radio-group",
   "@radix-ui/react-scroll-area",
   "@radix-ui/react-select", "@radix-ui/react-separator",
   "@radix-ui/react-slider",
   "@radix-ui/react-slot", "@radix-ui/react-switch", "@radix-ui/react-tabs",
   "@radix-ui/react-toast", "@radix-ui/react-toggle",
   "@radix-ui/react-toggle-group",
   "@radix-ui/react-tooltip",
   "lucide-react", "cmdk", "sonner", "vaul", "input-otp",
   "embla-carousel-react", "react-resizable-panels", "react-day-picker",
   "recharts",
   "react-hook-form", "@hookform/resolvers", "zod",
   "zustand", "date-fns", "axios", "framer-motion", "next-themes",
   "@babel/core", "@babel/plugin-syntax-typescript",
   "@types/react", "@types/react-dom", "@vitejs/plugin-react",
   "@tailwindcss/postcss", "@tailwindcss/vite", "@tailwindcss/typography",
   "tailwindcss", "postcss-import",
   "typescript", "vite", "@lookfree0822/vite-plugin-jsx-tagger"]

/-- One step of the `dependencies` merge loop: a user dependency that
is neither core nor already in the (so-far merged) template
`dependencies` is appended there and recorded in `extraDeps`. -/
def mergeDepStep (acc : PkgJson × List String) (e : String × String) :
    PkgJson × List String :=
  if e.1 ∉ coreDeps ∧ assocLookup acc.1.dependencies e.1 = none then
    ({ acc.1 with dependencies := acc.1.dependencies ++ [e] }, acc.2 ++ [e.1])
  else acc

/-- One step of the `devDependencies` merge loop (extra entries are
recorded as `name (dev)`). -/
def mergeDevDepStep (acc : PkgJson × List String) (e : String × String) :
    PkgJson × List String :=
  if e.1 ∉ coreDeps ∧ assocLookup acc.1.devDependencies e.1 = none then
    ({ acc.1 with devDependencies := acc.1.devDependencies ++ [e] },
     acc.2 ++ [e.1 ++ " (dev)"])
  else acc

/-- Embedding of `mergeUserDependencies`: returns the merged template
manifest and the list of extra dependencies that were added. -/
def mergeUserDependencies (templatePkg userPkg : PkgJson) :
    PkgJson × List String :=
  let acc1 := userPkg.dependencies.foldl mergeDepStep (templatePkg, [])
  userPkg.devDependencies.foldl mergeDevDepStep acc1

/-- One step of the user-file loop of `createProject` (template path):
skip-listed paths are not written — a skipped `package.json` entry is
parsed and remembered for the merge — and every other file is written
into the cloned project. -/
def createFileStep (acc : List (String × FileContent) × Option PkgJson)
    (file : String × FileContent) :
    List (String × FileContent) × Option PkgJson :=
  if file.1 ∈ skipFiles then
    if file.1 = "package.json" then
      match file.2 with
      | .pkg p => (acc.1, some p)
      | .text _ => acc
    else acc
  else (assocSet acc.1 file.1 file.2, acc.2)

/-- Embedding of the file phase of `createProject` on the template
fast path (non-empty `config.files`): clone the template, write the
user files minus the skip-list, then — when a user manifest was seen —
merge its novel dependencies into the cloned `package.json` and run
`ensure` exactly when that added anything.  Returns the resulting
project file store and whether `ensure` ran. -/
def createFromTemplate (templateFs : List (String × FileContent))
    (userFiles : List (String × FileContent)) :
    List (String × FileContent) × Bool :=
  let folded := userFiles.foldl createFileStep (templateFs, none)
  match folded.2 with
  | none => (folded.1, false)
  | some userPkg =>
    match assocLookup folded.1 "package.json" with
    | some (.pkg tpl) =>
      let merged := mergeUserDependencies tpl userPkg
      if merged.2 ≠ [] then
        (assocSet folded.1 "package.json" (.pkg merged.1), true)
      else (folded.1, false)
    | _ => (folded.1, false)

/-! ## Claim C4 lemmas -/

/-- A user dependency entry is novel relative to an existing section:
not a core dependency and not already present. -/
def novelDep (existing : List (String × String)) (e : String × String) : Bool :=
  decide (e.1 ∉ coreDeps ∧ assocLookup existing e.1 = none)

/-- Closed form of the `dependencies` merge loop for duplicate-free
user keys: the filter can be taken against the original template
section. -/
theorem mergeDep_fold_spec (entries : List (String × String)) :
    ∀ (tpl : PkgJson) (ex : List String),
      (entries.map Prod.fst).Nodup →
      entries.foldl mergeDepStep (tpl, ex) =
        ({ tpl with dependencies :=
             tpl.dependencies ++ entries.filter (novelDep tpl.dependencies) },
         ex ++ (entries.filter (novelDep tpl.dependencies)).map Prod.fst) := by
  induction entries with
  | nil => intro tpl ex _; simp
  | cons e rest ih =>
    intro tpl ex hnodup
    have hnodup_rest : (rest.map Prod.fst).Nodup :=
      (List.nodup_cons.mp (by simpa using hnodup)).2
    have hnotin : e.1 ∉ rest.map Prod.fst :=
      (List.nodup_cons.mp (by simpa using hnodup)).1
    rw [List.foldl_cons]
    by_cases hc : e.1 ∉ coreDeps ∧ assocLookup tpl.dependencies e.1 = none
    · rw [show mergeDepStep (tpl, ex) e =
          ({ tpl with dependencies := tpl.dependencies ++ [e] }, ex ++ [e.1]) by
        rw [mergeDepStep, if_pos hc]]
      rw [ih _ _ hnodup_rest]
      have hfilter : rest.filter
          (novelDep ({ tpl with dependencies := tpl.dependencies ++ [e]} :
            PkgJson).dependencies) = rest.filter (novelDep tpl.dependencies) := by
        apply List.filter_congr
        intro x hx
        have hne : e.1 ≠ x.1 := by
          intro heq
          exact hnotin (heq ▸ List.mem_map_of_mem Prod.fst hx)
        simp only [novelDep, decide_eq_decide]
        rw [assocLookup_append_singleton]
        constructor
        · rintro ⟨hcore, hlk⟩
          refine ⟨hcore, ?_⟩
          cases hlk' : assocLookup tpl.dependencies x.1 with
          | none => rfl
          | some v => rw [hlk'] at hlk; cases hlk
        · rintro ⟨hcore, hlk⟩
          refine ⟨hcore, ?_⟩
          rw [hlk, if_neg hne]
      rw [hfilter]
      have hhead : novelDep tpl.dependencies e = true := by
        simp [novelDep, hc]
      rw [List.filter_cons, if_pos (by rw [hhead])]
      simp
    · rw [show mergeDepStep (tpl, ex) e = (tpl, ex) by
        rw [mergeDepStep, if_neg hc]]
      rw [ih _ _ hnodup_rest]
      have hhead : novelDep tpl.dependencies e = false := by
        simp only [novelDep, decide_eq_false_iff_not]
        exact hc
      rw [List.filter_cons, if_neg (by rw [hhead]; simp)]

/-- Closed form of the `devDependencies` merge loop. -/
theorem mergeDevDep_fold_spec (entries : List (String × String)) :
    ∀ (tpl : PkgJson) (ex : List String),
      (entries.map Prod.fst).Nodup →
      entries.foldl mergeDevDepStep (tpl, ex) =
        ({ tpl with devDependencies :=
             tpl.devDependencies ++ entries.filter (novelDep tpl.devDependencies) },
         ex ++ (entries.filter (novelDep tpl.devDependencies)).map
           (fun e => e.1 ++ " (dev)")) := by
  induction entries with
  | nil => intro tpl ex _; simp
  | cons e rest ih =>
    intro tpl ex hnodup
    have hnodup_rest : (rest.map Prod.fst).Nodup :=
      (List.nodup_cons.mp (by simpa using hnodup)).2
    have hnotin : e.1 ∉ rest.map Prod.fst :=
      (List.nodup_cons.mp (by simpa using hnodup)).1
    rw [List.foldl_cons]
    by_cases hc : e.1 ∉ coreDeps ∧ assocLookup tpl.devDependencies e.1 = none
    · rw [show mergeDevDepStep (tpl, ex) e =
          ({ tpl with devDependencies := tpl.devDependencies ++ [e] },
           ex ++ [e.1 ++ " (dev)"]) by
        rw [mergeDevDepStep, if_pos hc]]
      rw [ih _ _ hnodup_rest]
      have hfilter : rest.filter
          (novelDep ({ tpl with devDependencies := tpl.devDependencies ++ [e]} :
            PkgJson).devDependencies) = rest.filter (novelDep tpl.devDependencies) := by
        apply List.filter_congr
        intro x hx
        have hne : e.1 ≠ x.1 := by
          intro heq
          exact hnotin (heq ▸ List.mem_map_of_mem Prod.fst hx)
        simp only [novelDep, decide_eq_decide]
        rw [assocLookup_append_singleton]
        constructor
        · rintro ⟨hcore, hlk⟩
          refine ⟨hcore, ?_⟩
          cases hlk' : assocLookup tpl.devDependencies x.1 with
          | none => rfl
          | some v => rw [hlk'] at hlk; cases hlk
        · rintro ⟨hcore, hlk⟩
          refine ⟨hcore, ?_⟩
          rw [hlk, if_neg hne]
      rw [hfilter]
      have hhead : novelDep tpl.devDependencies e = true := by
        simp [novelDep, hc]
      rw [List.filter_cons, if_pos (by rw [hhead])]
      simp
    · rw [show mergeDevDepStep (tpl, ex) e = (tpl, ex) by
        rw [mergeDevDepStep, if_neg hc]]
      rw [ih _ _ hnodup_rest]
      have hhead : novelDep tpl.devDependencies e = false := by
        simp only [novelDep, decide_eq_false_iff_not]
        exact hc
      rw [List.filter_cons, if_neg (by rw [hhead]; simp)]

/-- Closed form of `mergeUserDependencies` for duplicate-free user
sections. -/
theorem mergeUserDependencies_spec (tpl userPkg : PkgJson)
    (h1 : (userPkg.dependencies.map Prod.fst).Nodup)
    (h2 : (userPkg.devDependencies.map Prod.fst).Nodup) :
    mergeUserDependencies tpl userPkg =
      ({ dependencies :=
           tpl.dependencies ++ userPkg.dependencies.filter (novelDep tpl.dependencies),
         devDependencies :=
           tpl.devDependencies ++
             userPkg.devDependencies.filter (novelDep tpl.devDependencies),
         rest := tpl.rest },
       (userPkg.dependencies.filter (novelDep tpl.dependencies)).map Prod.fst ++
         (userPkg.devDependencies.filter (novelDep tpl.devDependencies)).map
           (fun e => e.1 ++ " (dev)")) := by
  rw [mergeUserDependencies]
  rw [mergeDep_fold_spec _ _ _ h1]
  rw [mergeDevDep_fold_spec _ _ _ h2]
  rfl

/-- Folding user files that contain no `package.json` neither touches
the remembered user manifest nor the stored `package.json`. -/
theorem createFileStep_fold_no_pkg (files : List (String × FileContent)) :
    ∀ (acc : List (String × FileContent) × Option PkgJson),
      files.filter (fun f => decide (f.1 = "package.json")) = [] →
      (files.foldl createFileStep acc).2 = acc.2 ∧
      assocLookup (files.foldl createFileStep acc).1 "package.json" =
        assocLookup acc.1 "package.json" := by
  induction files with
  | nil => intro acc _; exact ⟨rfl, rfl⟩
  | cons f rest ih =>
    intro acc hfilter
    rw [List.filter_cons] at hfilter
    by_cases hf : f.1 = "package.json"
    · rw [if_pos (by simp [hf])] at hfilter
      cases hfilter
    · rw [if_neg (by simp [hf])] at hfilter
      rw [List.foldl_cons]
      by_cases hskip : f.1 ∈ skipFiles
      · rw [show createFileStep acc f = acc by
          rw [createFileStep, if_pos hskip, if_neg hf]]
        exact ih acc hfilter
      · rw [show createFileStep acc f = (assocSet acc.1 f.1 f.2, acc.2) by
          rw [createFileStep, if_neg hskip]]
        obtain ⟨ha, hb⟩ := ih (assocSet acc.1 f.1 f.2, acc.2) hfilter
        exact ⟨ha, hb.trans (assocLookup_set_ne acc.1 f.2 hf)⟩

/-- Folding user files whose single `package.json` entry parses to
`userPkg` remembers exactly that manifest and leaves the stored
`package.json` untouched (the skip list preserves the template's). -/
theorem createFileStep_fold_with_pkg (files : List (String × FileContent))
    (userPkg : PkgJson) :
    ∀ (acc : List (String × FileContent) × Option PkgJson),
      files.filter (fun f => decide (f.1 = "package.json")) =
        [("package.json", FileContent.pkg userPkg)] →
      (files.foldl createFileStep acc).2 = some userPkg ∧
      assocLookup (files.foldl createFileStep acc).1 "package.json" =
        assocLookup acc.1 "package.json" := by
  induction files with
  | nil => intro acc h; cases h
  | cons f rest ih =>
    intro acc hfilter
    rw [List.filter_cons] at hfilter
    by_cases hf : f.1 = "package.json"
    · rw [if_pos (by simp [hf])] at hfilter
      rw [List.cons.injEq] at hfilter
      obtain ⟨hfe, hrest⟩ := hfilter
      rw [List.foldl_cons]
      have hf2 : f.2 = FileContent.pkg userPkg := by rw [hfe]
      rw [show createFileStep acc f = (acc.1, some userPkg) by
        rw [createFileStep, if_pos (by rw [hf]; decide), if_pos hf, hf2]]
      exact createFileStep_fold_no_pkg rest (acc.1, some userPkg) hrest
    · rw [if_neg (by simp [hf])] at hfilter
      rw [List.foldl_cons]
      by_cases hskip : f.1 ∈ skipFiles
      · rw [show createFileStep acc f = acc by
          rw [createFileStep, if_pos hskip, if_neg hf]]
        exact ih acc hfilter
      · rw [show createFileStep acc f = (assocSet acc.1 f.1 f.2, acc.2) by
          rw [createFileStep, if_neg hskip]]
        obtain ⟨ha, hb⟩ := ih (assocSet acc.1 f.1 f.2, acc.2) hfilter
        exact ⟨ha, hb.trans (assocLookup_set_ne acc.1 f.2 hf)⟩

/-! ## Claim C4: the template manifest survives creation -/

/-- C4.  On the template fast path, when the user file list carries a
(parsable) `package.json`, the on-disk `package.json` after `create`
is the template's manifest — same non-dependency fields, template
sections extended only by user entries that are neither core
dependencies nor already present — never the user's raw manifest; and
`ensure` runs exactly when such extra dependencies exist.  User
sections are assumed duplicate-free (JSON objects cannot carry
duplicate keys). -/
theorem create_preserves_template_manifest
    (templateFs userFiles : List (String × FileContent)) (tpl userPkg : PkgJson)
    (htpl : assocLookup templateFs "package.json" = some (.pkg tpl))
    (huser : userFiles.filter (fun f => decide (f.1 = "package.json")) =
      [("package.json", FileContent.pkg userPkg)])
    (h1 : (userPkg.dependencies.map Prod.fst).Nodup)
    (h2 : (userPkg.devDependencies.map Prod.fst).Nodup) :
    assocLookup (createFromTemplate templateFs userFiles).1 "package.json" =
      some (.pkg (mergeUserDependencies tpl userPkg).1) ∧
    (mergeUserDependencies tpl userPkg).1.dependencies =
      tpl.dependencies ++ userPkg.dependencies.filter (novelDep tpl.dependencies) ∧
    (mergeUserDependencies tpl userPkg).1.devDependencies =
      tpl.devDependencies ++
        userPkg.devDependencies.filter (novelDep tpl.devDependencies) ∧
    (mergeUserDependencies tpl userPkg).1.rest = tpl.rest ∧
    ((createFromTemplate templateFs userFiles).2 = true ↔
      (mergeUserDependencies tpl userPkg).2 ≠ []) ∧
    (userPkg ≠ (mergeUserDependencies tpl userPkg).1 →
      assocLookup (createFromTemplate templateFs userFiles).1 "package.json" ≠
        some (FileContent.pkg userPkg)) := by
  obtain ⟨hfold2, hfoldlk⟩ :=
    createFileStep_fold_with_pkg userFiles userPkg (templateFs, none) huser
  have hlk : assocLookup
      (userFiles.foldl createFileStep (templateFs, none)).1 "package.json" =
      some (.pkg tpl) := hfoldlk.trans htpl
  have hspec := mergeUserDependencies_spec tpl userPkg h1 h2
  have hmain : assocLookup (createFromTemplate templateFs userFiles).1 "package.json" =
      some (.pkg (mergeUserDependencies tpl userPkg).1) ∧
      ((createFromTemplate templateFs userFiles).2 = true ↔
        (mergeUserDependencies tpl userPkg).2 ≠ []) := by
    rw [createFromTemplate, hfold2, hlk]
    dsimp only
    by_cases hex : (mergeUserDependencies tpl userPkg).2 = []
    · rw [if_neg (by simpa using hex)]
      have hmerged : (mergeUserDependencies tpl userPkg).1 = tpl := by
        rw [hspec] at hex ⊢
        simp only at hex ⊢
        rw [List.append_eq_nil] at hex
        obtain ⟨ha, hb⟩ := hex
        rw [List.map_eq_nil_iff] at ha hb
        rw [ha, hb]
        simp
      rw [hmerged]
      exact ⟨hlk, by simp [hex]⟩
    · rw [if_pos (by simpa using hex)]
      exact ⟨assocLookup_set_self _ _ _, by simp [hex]⟩
  refine ⟨hmain.1, by rw [hspec], by rw [hspec], by rw [hspec], hmain.2, ?_⟩
  intro hne hcontra
  rw [hmain.1] at hcontra
  exact hne (by injection (Option.some.inj hcontra) with h; exact h.symm)

/-- Witness for C4: a template with `react` pinned plus a `left-pad`
extra, a user manifest adding `lodash` (novel) and `react` (core): the
on-disk manifest is the template's extended with `lodash` only, and
`ensure` runs. -/
theorem create_preserves_template_manifest_witness :
    assocLookup (createFromTemplate
        [("package.json", .pkg ⟨[("react", "19.0.0"), ("left-pad", "1.3.0")],
           [("vite", "6.0.0")], "template-fields"⟩),
         ("index.html", .text "<html></html>")]
        [("src/App.tsx", .text "user-app"),
         ("package.json", .pkg ⟨[("lodash", "4.17.21"), ("react", "18.0.0")],
           [], "user-fields"⟩)]).1 "package.json" =
      some (.pkg ⟨[("react", "19.0.0"), ("left-pad", "1.3.0"), ("lodash", "4.17.21")],
        [("vite", "6.0.0")], "template-fields"⟩) ∧
    (createFromTemplate
        [("package.json", .pkg ⟨[("react", "19.0.0"), ("left-pad", "1.3.0")],
           [("vite", "6.0.0")], "template-fields"⟩),
         ("index.html", .text "<html></html>")]
        [("src/App.tsx", .text "user-app"),
         ("package.json", .pkg ⟨[("lodash", "4.17.21"), ("react", "18.0.0")],
           [], "user-fields"⟩)]).2 = true := by
  have h := create_preserves_template_manifest
    [("package.json", .pkg ⟨[("react", "19.0.0"), ("left-pad", "1.3.0")],
       [("vite", "6.0.0")], "template-fields"⟩),
     ("index.html", .text "<html></html>")]
    [("src/App.tsx", .text "user-app"),
     ("package.json", .pkg ⟨[("lodash", "4.17.21"), ("react", "18.0.0")],
       [], "user-fields"⟩)]
    ⟨[("react", "19.0.0"), ("left-pad", "1.3.0")], [("vite", "6.0.0")],
      "template-fields"⟩
    ⟨[("lodash", "4.17.21"), ("react", "18.0.0")], [], "user-fields"⟩
    (by decide) (by decide) (by decide) (by decide)
  refine ⟨?_, ?_⟩
  · rw [h.1]
    decide
  · exact h.2.2.2.2.1.mpr (by decide)

/-! ## Loop-aware JSX tagging
(`packages/vite-plugin-jsx-tagger/src/babel-plugin.ts`)

The embedding covers the JavaScript expression forms the plugin's
logic distinguishes: identifiers, member accesses, calls,
arrow/function expressions (both are treated identically by the
source), JSX elements, and a generic `other` node standing for any
other expression kind with sub-expressions.  Attribute values carry
only the shapes the plugin reads or writes (string literal, the
two-part template literal it emits, anything else opaque); second
callback parameters are an identifier or an opaque destructuring
pattern.

Babel's upward `getArrayIteratorInfo` walk is rendered as a context
threaded downward: entering a function expression that is an argument
of a call whose callee is a member access with an iterator-method name
installs a new innermost frame (`some (some idx)` when the index
parameter is the identifier `idx` — inserted as `__jsx_idx__` when the
callback had no second parameter and some element needed it —
`some none` when the second parameter is a destructuring pattern);
every other node passes the context through, matching the walk, which
only stops at such a callback.  The `Bool` that the transform returns
alongside each node records whether some processed element consulted
the innermost frame, i.e. whether `params.push` fired. -/

inductive JAttrVal where
  | str (s : String)
  | tmpl (pre : String) (idx : String)
  | otherVal
  deriving Repr, DecidableEq

inductive JAttr where
  | named (name : String) (value : JAttrVal)
  | spread
  deriving Repr, DecidableEq

inductive JPat where
  | pid (name : String)
  | ppattern
  deriving Repr, DecidableEq

mutual
inductive JExpr where
  | ident (name : String)
  | member (obj : JExpr) (prop : String)
  | call (callee : JExpr) (args : JExprList)
  | fn (params : List JPat) (body : JExpr)
  | jsx (name : String) (attrs : List JAttr) (loc : Option (Nat × Nat))
      (children : JExprList)
  | other (children : JExprList)
  deriving Repr, DecidableEq

inductive JExprList where
  | nil
  | cons (head : JExpr) (tail : JExprList)
  deriving Repr, DecidableEq
end

/-- The `iteratorMethods` list of `getArrayIteratorInfo`. -/
def iteratorMethods : List String :=
  ["map", "forEach", "filter", "find", "findIndex", "some", "every", "flatMap"]

/-- The callee shape `xxx.<method>` with an iterator method name. -/
def isIteratorCallee : JExpr → Bool
  | .member _ prop => decide (prop ∈ iteratorMethods)
  | _ => false

/-- Embedding of `hasJsxIdAttribute` (spread attributes are not
`JSXAttribute`s and are ignored). -/
def hasJsxIdAttribute (attrs : List JAttr) : Bool :=
  attrs.any (fun a =>
    match a with
    | .named n _ => n == "data-jsx-id"
    | .spread => false)

/-- The `/^[a-z]/` test on the element name. -/
def startsLowercase (name : String) : Bool :=
  match name.data with
  | [] => false
  | c :: _ => 97 ≤ c.toNat && c.toNat ≤ 122

/-- An opening element the visitor tags: it has a location, a
lowercase-starting name, and no existing `data-jsx-id`. -/
def qualifiesForTagging (name : String) (attrs : List JAttr)
    (loc : Option (Nat × Nat)) : Bool :=
  loc.isSome && startsLowercase name && !hasJsxIdAttribute attrs

/-- Plugin options: the MD5 primitive (abstract, as in the id
generator), the file path and the id prefix. -/
structure TagCfg where
  md5hex : String → String
  filePath : String
  idPrefix : String

/-- The four attributes the visitor appends, with `data-jsx-id`
dynamic (`` `baseId-${idx}` ``) when an identifier index variable is
in scope and a string literal otherwise. -/
def taggedAttrs (cfg : TagCfg) (ctx : Option (Option String))
    (attrs : List JAttr) (line column : Nat) : List JAttr :=
  let baseId := generateStableId cfg.md5hex cfg.filePath line column cfg.idPrefix
  let idAttr :=
    match ctx with
    | some (some idx) => JAttr.named "data-jsx-id" (.tmpl (baseId ++ "-") idx)
    | _ => JAttr.named "data-jsx-id" (.str baseId)
  attrs ++ [idAttr,
    .named "data-jsx-file" (.str cfg.filePath),
    .named "data-jsx-line" (.str (toString line)),
    .named "data-jsx-col" (.str (toString column))]

mutual
/-- The tagging traversal.  Returns the rewritten node and whether a
tagged element consulted the innermost iterator frame (which is what
triggers `params.push(__jsx_idx__)` in the source). -/
def transformExpr (cfg : TagCfg) (ctx : Option (Option String)) :
    JExpr → JExpr × Bool
  | .ident n => (.ident n, false)
  | .member obj prop =>
    let r := transformExpr cfg ctx obj
    (.member r.1 prop, r.2)
  | .call callee args =>
    let rc := transformExpr cfg ctx callee
    let ra := transformArgs cfg ctx (isIteratorCallee callee) args
    (.call rc.1 ra.1, rc.2 || ra.2)
  | .fn params body =>
    let rb := transformExpr cfg ctx body
    (.fn params rb.1, rb.2)
  | .jsx name attrs loc children =>
    let rcs := transformArgs cfg ctx false children
    match loc with
    | some (line, column) =>
      if startsLowercase name && !hasJsxIdAttribute attrs then
        match ctx with
        | some (some idx) =>
          (.jsx name (taggedAttrs cfg (some (some idx)) attrs line column)
            loc rcs.1, true)
        | _ =>
          (.jsx name (taggedAttrs cfg ctx attrs line column) loc rcs.1, rcs.2)
      else (.jsx name attrs loc rcs.1, rcs.2)
    | none => (.jsx name attrs loc rcs.1, rcs.2)
  | .other cs =>
    let rcs := transformArgs cfg ctx false cs
    (.other rcs.1, rcs.2)

/-- Traversal of argument (or child) lists.  When `isIter` is set the
list is the argument list of an iterator-method call, so a function
expression argument is the callback `getArrayIteratorInfo` stops at:
it gets a fresh innermost frame from its own second parameter —
`__jsx_idx__` inserted if missing and used, the identifier if present,
no index name if destructured — and its used-flag is consumed there
(the upward walk never passes such a callback). -/
def transformArgs (cfg : TagCfg) (ctx : Option (Option String)) (isIter : Bool) :
    JExprList → JExprList × Bool
  | .nil => (.nil, false)
  | .cons (.fn params body) rest =>
    let ra :=
      if isIter then
        match params[1]? with
        | some (JPat.pid n) =>
          ((.fn params (transformExpr cfg (some (some n)) body).1 : JExpr), false)
        | some JPat.ppattern =>
          ((.fn params (transformExpr cfg (some none) body).1 : JExpr), false)
        | none =>
          let rb := transformExpr cfg (some (some "__jsx_idx__")) body
          ((.fn (if rb.2 then params ++ [.pid "__jsx_idx__"] else params) rb.1 :
            JExpr), false)
      else
        let rb := transformExpr cfg ctx body
        ((.fn params rb.1 : JExpr), rb.2)
    let rr := transformArgs cfg ctx isIter rest
    (.cons ra.1 rr.1, ra.2 || rr.2)
  | .cons a rest =>
    let ra := transformExpr cfg ctx a
    let rr := transformArgs cfg ctx isIter rest
    (.cons ra.1 rr.1, ra.2 || rr.2)
end

mutual
/-- Specification-side predicate: the expression contains, outside any
nested iterator callback (which would shadow the frame), a JSX element
the visitor tags. -/
def hasQualifying : JExpr → Bool
  | .ident _ => false
  | .member o _ => hasQualifying o
  | .call c args => hasQualifying c || hasQualifyingArgs (isIteratorCallee c) args
  | .fn _ b => hasQualifying b
  | .jsx name attrs loc children =>
    qualifiesForTagging name attrs loc || hasQualifyingArgs false children
  | .other cs => hasQualifyingArgs false cs

def hasQualifyingArgs (isIter : Bool) : JExprList → Bool
  | .nil => false
  | .cons (.fn _ b) rest =>
    (if isIter then false else hasQualifying b) || hasQualifyingArgs isIter rest
  | .cons a rest => hasQualifying a || hasQualifyingArgs isIter rest
end

/-- The dynamically-tagged attribute list the spec expects: the input
attributes followed by `data-jsx-id` as the template
`` `baseId-${idx}` `` and literal `data-jsx-file` / `-line` / `-col`. -/
def dynTagAttrs (cfg : TagCfg) (idx : String) (attrs : List JAttr)
    (line column : Nat) : List JAttr :=
  let baseId := generateStableId cfg.md5hex cfg.filePath line column cfg.idPrefix
  attrs ++ [.named "data-jsx-id" (.tmpl (baseId ++ "-") idx),
    .named "data-jsx-file" (.str cfg.filePath),
    .named "data-jsx-line" (.str (toString line)),
    .named "data-jsx-col" (.str (toString column))]

mutual
/-- Specification-side checker relating the input tree to the
transform output inside an iterator callback whose index identifier is
`idx`: the output is the input, except that every qualifying element
not shadowed by a nested iterator callback carries the dynamic
`data-jsx-id` and the three literal location attributes; nested
iterator callbacks are outside the claim's scope and unchecked. -/
def tagRel (cfg : TagCfg) (idx : String) : JExpr → JExpr → Bool
  | .ident n, .ident n2 => n == n2
  | .member o p, .member o2 p2 => tagRel cfg idx o o2 && p == p2
  | .call c args, .call c2 args2 =>
    tagRel cfg idx c c2 && tagRelArgs cfg idx (isIteratorCallee c) args args2
  | .fn ps b, .fn ps2 b2 => ps == ps2 && tagRel cfg idx b b2
  | .jsx name attrs loc children, .jsx name2 attrs2 loc2 children2 =>
    name == name2 && loc == loc2 &&
    tagRelArgs cfg idx false children children2 &&
    (match loc with
     | some (line, column) =>
       if startsLowercase name && !hasJsxIdAttribute attrs then
         attrs2 == dynTagAttrs cfg idx attrs line column
       else attrs2 == attrs
     | none => attrs2 == attrs)
  | .other cs, .other cs2 => tagRelArgs cfg idx false cs cs2
  | _, _ => false

def tagRelArgs (cfg : TagCfg) (idx : String) (isIter : Bool) :
    JExprList → JExprList → Bool
  | .nil, .nil => true
  | .cons (.fn ps b) rest, .cons h2 rest2 =>
    (if isIter then true
     else
       match h2 with
       | .fn ps2 b2 => ps == ps2 && tagRel cfg idx b b2
       | _ => false) &&
    tagRelArgs cfg idx isIter rest rest2
  | .cons a rest, .cons a2 rest2 =>
    tagRel cfg idx a a2 && tagRelArgs cfg idx isIter rest rest2
  | _, _ => false
end

/-! ## Claim C6 lemmas -/

mutual
/-- The used-flag returned under an identifier-index frame is exactly
"the subtree contains an unshadowed qualifying element". -/
theorem transform_used_eq (cfg : TagCfg) (idx : String) (e : JExpr) :
    (transformExpr cfg (some (some idx)) e).2 = hasQualifying e := by
  cases e with
  | ident n => rfl
  | member o p =>
    simp [transformExpr, hasQualifying, transform_used_eq cfg idx o]
  | call c args =>
    simp [transformExpr, hasQualifying, transform_used_eq cfg idx c,
      transformArgs_used_eq cfg idx (isIteratorCallee c) args]
  | fn ps b =>
    simp [transformExpr, hasQualifying, transform_used_eq cfg idx b]
  | jsx name attrs loc children =>
    cases loc with
    | none =>
      simp [transformExpr, hasQualifying, qualifiesForTagging,
        transformArgs_used_eq cfg idx false children]
    | some lc =>
      obtain ⟨line, col⟩ := lc
      by_cases hq : (startsLowercase name && !hasJsxIdAttribute attrs) = true
      · simp [transformExpr, hasQualifying, qualifiesForTagging, hq]
      · simp [transformExpr, hasQualifying, qualifiesForTagging, hq,
          transformArgs_used_eq cfg idx false children]
  | other cs =>
    simp [transformExpr, hasQualifying,
      transformArgs_used_eq cfg idx false cs]

theorem transformArgs_used_eq (cfg : TagCfg) (idx : String) (isIter : Bool)
    (l : JExprList) :
    (transformArgs cfg (some (some idx)) isIter l).2 =
      hasQualifyingArgs isIter l := by
  cases l with
  | nil => rfl
  | cons a rest =>
    cases a with
    | fn ps b =>
      by_cases hIter : isIter = true
      · subst hIter
        cases hps : ps[1]? with
        | none =>
          simp [transformArgs, hasQualifyingArgs, hps,
            transformArgs_used_eq cfg idx true rest]
        | some pat =>
          cases pat <;>
            simp [transformArgs, hasQualifyingArgs, hps,
              transformArgs_used_eq cfg idx true rest]
      · have hIter' : isIter = false := by
          cases isIter
          · rfl
          · exact absurd rfl hIter
        subst hIter'
        simp [transformArgs, hasQualifyingArgs,
          transform_used_eq cfg idx b,
          transformArgs_used_eq cfg idx false rest]
    | ident n =>
      simp [transformArgs, hasQualifyingArgs,
        transform_used_eq cfg idx (JExpr.ident n),
        transformArgs_used_eq cfg idx isIter rest]
    | member o p =>
      simp [transformArgs, hasQualifyingArgs,
        transform_used_eq cfg idx (JExpr.member o p),
        transformArgs_used_eq cfg idx isIter rest]
    | call c args =>
      simp [transformArgs, hasQualifyingArgs,
        transform_used_eq cfg idx (JExpr.call c args),
        transformArgs_used_eq cfg idx isIter rest]
    | jsx name attrs loc children =>
      simp [transformArgs, hasQualifyingArgs,
        transform_used_eq cfg idx (JExpr.jsx name attrs loc children),
        transformArgs_used_eq cfg idx isIter rest]
    | other cs =>
      simp [transformArgs, hasQualifyingArgs,
        transform_used_eq cfg idx (JExpr.other cs),
        transformArgs_used_eq cfg idx isIter rest]
end

mutual
/-- Inside an identifier-index frame, the transform output stands in
the `tagRel` relation to its input: every unshadowed qualifying
element gained the dynamic id and the literal location attributes, and
nothing else changed. -/
theorem tagRel_transform (cfg : TagCfg) (idx : String) (e : JExpr) :
    tagRel cfg idx e (transformExpr cfg (some (some idx)) e).1 = true := by
  cases e with
  | ident n => simp [transformExpr, tagRel]
  | member o p =>
    simp [transformExpr, tagRel, tagRel_transform cfg idx o]
  | call c args =>
    simp [transformExpr, tagRel, tagRel_transform cfg idx c,
      tagRelArgs_transform cfg idx (isIteratorCallee c) args]
  | fn ps b =>
    simp [transformExpr, tagRel, tagRel_transform cfg idx b]
  | jsx name attrs loc children =>
    cases loc with
    | none =>
      simp [transformExpr, tagRel,
        tagRelArgs_transform cfg idx false children]
    | some lc =>
      obtain ⟨line, col⟩ := lc
      by_cases hq : (startsLowercase name && !hasJsxIdAttribute attrs) = true
      · simp [transformExpr, tagRel, hq,
          tagRelArgs_transform cfg idx false children,
          taggedAttrs, dynTagAttrs]
      · simp [transformExpr, tagRel, hq,
          tagRelArgs_transform cfg idx false children]
  | other cs =>
    simp [transformExpr, tagRel, tagRelArgs_transform cfg idx false cs]

theorem tagRelArgs_transform (cfg : TagCfg) (idx : String) (isIter : Bool)
    (l : JExprList) :
    tagRelArgs cfg idx isIter l
      (transformArgs cfg (some (some idx)) isIter l).1 = true := by
  cases l with
  | nil => simp [transformArgs, tagRelArgs]
  | cons a rest =>
    cases a with
    | fn ps b =>
      by_cases hIter : isIter = true
      · subst hIter
        cases hps : ps[1]? with
        | none =>
          simp [transformArgs, tagRelArgs, hps,
            tagRelArgs_transform cfg idx true rest]
        | some pat =>
          cases pat <;>
            simp [transformArgs, tagRelArgs, hps,
              tagRelArgs_transform cfg idx true rest]
      · have hIter' : isIter = false := by
          cases isIter
          · rfl
          · exact absurd rfl hIter
        subst hIter'
        simp [transformArgs, tagRelArgs, tagRel_transform cfg idx b,
          tagRelArgs_transform cfg idx false rest]
    | ident n =>
      simp [transformArgs, tagRelArgs, tagRel_transform cfg idx (JExpr.ident n),
        tagRelArgs_transform cfg idx isIter rest]
    | member o p =>
      simp [transformArgs, tagRelArgs,
        tagRel_transform cfg idx (JExpr.member o p),
        tagRelArgs_transform cfg idx isIter rest]
    | call c args =>
      simp [transformArgs, tagRelArgs,
        tagRel_transform cfg idx (JExpr.call c args),
        tagRelArgs_transform cfg idx isIter rest]
    | jsx name attrs loc children =>
      simp [transformArgs, tagRelArgs,
        tagRel_transform cfg idx (JExpr.jsx name attrs loc children),
        tagRelArgs_transform cfg idx isIter rest]
    | other cs =>
      simp [transformArgs, tagRelArgs,
        tagRel_transform cfg idx (JExpr.other cs),
        tagRelArgs_transform cfg idx isIter rest]
end

/-! ## Claim C6: loop-aware tagging -/

/-- C6.  For a call `X.m(...)` with `m` an iterator method whose
callback has no second parameter, whenever the callback body contains
(at any depth, outside nested iterator callbacks) a lowercase-tagged
element the visitor processes, the transform output (a) extends the
callback's parameters with the identifier `__jsx_idx__` and (b) —
per `tagRel` — gives every such element `data-jsx-id` as the dynamic
template `` `baseId-${__jsx_idx__}` `` instead of a string literal,
while `data-jsx-file`, `data-jsx-line` and `data-jsx-col` stay string
literals and everything else is unchanged. -/
theorem loop_aware_tagging (cfg : TagCfg) (ctx : Option (Option String))
    (X : JExpr) (m : String) (ps : List JPat) (body : JExpr)
    (hm : m ∈ iteratorMethods)
    (hps : ps[1]? = none)
    (hq : hasQualifying body = true) :
    ∃ Xout bodyOut,
      transformExpr cfg ctx
          (.call (.member X m) (.cons (.fn ps body) .nil)) =
        (.call (.member Xout m)
          (.cons (.fn (ps ++ [.pid "__jsx_idx__"]) bodyOut) .nil),
         (transformExpr cfg ctx X).2) ∧
      tagRel cfg "__jsx_idx__" body bodyOut = true := by
  refine ⟨(transformExpr cfg ctx X).1,
    (transformExpr cfg (some (some "__jsx_idx__")) body).1, ?_,
    tagRel_transform cfg "__jsx_idx__" body⟩
  have hiter : isIteratorCallee (.member X m) = true := by
    simp [isIteratorCallee, hm]
  have hused : (transformExpr cfg (some (some "__jsx_idx__")) body).2 = true := by
    rw [transform_used_eq]; exact hq
  simp [transformExpr, transformArgs, hiter, hps, hused]

/-- Witness for C6: `items.map(item => <li/>)` — the callback gains
`__jsx_idx__`, and the element gets the dynamic id plus literal
file/line/col attributes (shown fully evaluated, with the concrete
stand-in MD5 primitive). -/
theorem loop_aware_tagging_witness :
    (∃ Xout bodyOut,
      transformExpr ⟨md5hexModel, "/src/App.tsx", "demo"⟩ none
          (.call (.member (.ident "items") "map")
            (.cons (.fn [.pid "item"] (.jsx "li" [] (some (3, 4)) .nil)) .nil)) =
        (.call (.member Xout "map")
          (.cons (.fn ([.pid "item"] ++ [.pid "__jsx_idx__"]) bodyOut) .nil),
         (transformExpr ⟨md5hexModel, "/src/App.tsx", "demo"⟩ none
           (.ident "items")).2) ∧
      tagRel ⟨md5hexModel, "/src/App.tsx", "demo"⟩ "__jsx_idx__"
        (.jsx "li" [] (some (3, 4)) .nil) bodyOut = true) ∧
    (transformExpr ⟨md5hexModel, "/src/App.tsx", "demo"⟩ none
        (.call (.member (.ident "items") "map")
          (.cons (.fn [.pid "item"] (.jsx "li" [] (some (3, 4)) .nil)) .nil))).1 =
      .call (.member (.ident "items") "map")
        (.cons (.fn [.pid "item", .pid "__jsx_idx__"]
          (.jsx "li"
            [.named "data-jsx-id" (.tmpl "demo-00000000-" "__jsx_idx__"),
             .named "data-jsx-file" (.str "/src/App.tsx"),
             .named "data-jsx-line" (.str "3"),
             .named "data-jsx-col" (.str "4")]
            (some (3, 4)) .nil)) .nil) := by
  constructor
  · exact loop_aware_tagging ⟨md5hexModel, "/src/App.tsx", "demo"⟩ none
      (.ident "items") "map" [.pid "item"] (.jsx "li" [] (some (3, 4)) .nil)
      (by decide) rfl (by decide)
  · decide

end OmniflowFly
